import Mathlib

/-!
# Verification of the haushaltsbuch normalization and aggregation core

This file gives a shallow embedding, in Lean 4, of the data-normalization and
aggregation core of the haushaltsbuch budget keeper (src/main.py), and proves
or refutes the specified properties of that core.

Modelling conventions:

* JSON / Python values are modelled by the inductive type `JVal`.  Python
  booleans are modelled as the numbers 0 and 1 (in Python, `bool` is a
  subclass of `int`, and every operation exercised by the verified code --
  truthiness, `float(...)`, `isinstance(_, (int, float))`, `==`-based
  membership -- treats `True`/`False` exactly as `1`/`0`).
* Python floats are modelled as exact rationals (`ℚ`); overflow and rounding
  of IEEE floats are outside the model.
* Python dicts are modelled as association lists (`JObj`); assignment
  replaces the first occurrence of a key in place or appends a new key at the
  end, exactly like insertion-ordered Python dicts.  Python `==` on values
  (which on dicts ignores key order) is modelled by `pyEq`, comparison of
  canonical forms.
* `uuid.uuid4()` is modelled by a threaded `Nat` counter producing the
  distinct strings `"uuid-0"`, `"uuid-1"`, ...; every operation that may
  generate ids takes and returns the counter.
* Operations that can raise a Python exception that escapes to the framework
  (`TypeError` / `AttributeError` / `KeyError`) are modelled with `Option`
  or `PyResult`, `none` / `.crash` marking the exception.
-/

/-- A JSON / Python value.  Booleans are represented as the numbers 0 / 1,
see the module docstring. -/
inductive JVal where
  | null : JVal
  | num (q : ℚ) : JVal
  | str (s : String) : JVal
  | arr (elems : List JVal) : JVal
  | obj (fields : List (String × JVal)) : JVal
deriving Repr

/-- A Python dict with string keys: an insertion-ordered association list. -/
abbrev JObj := List (String × JVal)

namespace JVal

mutual

/-- Structural (representation-level) equality of values. -/
def beq : JVal → JVal → Bool
  | .null, .null => true
  | .num a, .num b => a == b
  | .str a, .str b => a == b
  | .arr a, .arr b => beqList a b
  | .obj a, .obj b => beqFields a b
  | _, _ => false

/-- Structural equality of value lists. -/
def beqList : List JVal → List JVal → Bool
  | [], [] => true
  | a :: as, b :: bs => beq a b && beqList as bs
  | _, _ => false

/-- Structural equality of field lists. -/
def beqFields : List (String × JVal) → List (String × JVal) → Bool
  | [], [] => true
  | (k, v) :: as, (k', v') :: bs => k == k' && beq v v' && beqFields as bs
  | _, _ => false

end

mutual

theorem beq_iff : ∀ a b : JVal, beq a b = true ↔ a = b
  | .null, .null => by simp [beq]
  | .num a, .num b => by simp [beq]
  | .str a, .str b => by simp [beq]
  | .arr a, .arr b => by simp [beq, beqList_iff a b]
  | .obj a, .obj b => by simp [beq, beqFields_iff a b]
  | .null, .num _ | .null, .str _ | .null, .arr _ | .null, .obj _
  | .num _, .null | .num _, .str _ | .num _, .arr _ | .num _, .obj _
  | .str _, .null | .str _, .num _ | .str _, .arr _ | .str _, .obj _
  | .arr _, .null | .arr _, .num _ | .arr _, .str _ | .arr _, .obj _
  | .obj _, .null | .obj _, .num _ | .obj _, .str _ | .obj _, .arr _ => by
    simp [beq]

theorem beqList_iff : ∀ as bs : List JVal, beqList as bs = true ↔ as = bs
  | [], [] => by simp [beqList]
  | a :: as, b :: bs => by
    simp [beqList, beq_iff a b, beqList_iff as bs]
  | [], _ :: _ => by simp [beqList]
  | _ :: _, [] => by simp [beqList]

theorem beqFields_iff : ∀ as bs : List (String × JVal), beqFields as bs = true ↔ as = bs
  | [], [] => by simp [beqFields]
  | (k, v) :: as, (k', v') :: bs => by
    simp [beqFields, beq_iff v v', beqFields_iff as bs, and_assoc]
  | [], _ :: _ => by simp [beqFields]
  | _ :: _, [] => by simp [beqFields]

end

instance : DecidableEq JVal := fun a b => decidable_of_iff _ (beq_iff a b)

/-- First-occurrence lookup in a dict, `l[k]` / `k in l`. -/
def jget? (fs : JObj) (k : String) : Option JVal :=
  match fs with
  | [] => none
  | (k', v) :: rest => if k' = k then some v else jget? rest k

/-- `l.get(k)`: lookup defaulting to `None`. -/
def getD (fs : JObj) (k : String) : JVal :=
  (jget? fs k).getD JVal.null

/-- `k in l`. -/
def hasKey (fs : JObj) (k : String) : Bool :=
  (jget? fs k).isSome

/-- Dict assignment `l[k] = v`: replace the first occurrence in place, or
append at the end. -/
def jset (fs : JObj) (k : String) (v : JVal) : JObj :=
  match fs with
  | [] => [(k, v)]
  | (k', w) :: rest => if k' = k then (k, v) :: rest else (k', w) :: jset rest k v

/-- Python truthiness of a value. -/
def truthy : JVal → Bool
  | .null => false
  | .num q => decide (q ≠ 0)
  | .str s => decide (s ≠ "")
  | .arr xs => decide (xs ≠ [])
  | .obj fs => decide (fs ≠ [])

/-- Python `x if cond else d` pattern `x or d` specialised to a default. -/
def orElseVal (v d : JVal) : JVal :=
  if truthy v then v else d

/-- Code-point lexicographic order on strings as a computable Boolean (the
order Python sorted uses on str); it agrees with the ≤ of String (see
strLeB_iff) but, unlike the library order, reduces inside the kernel. -/
def strLeB (a b : String) : Bool := decide (a.toList ≤ b.toList)

theorem strLeB_iff {a b : String} : strLeB a b = true ↔ a ≤ b := by
  rw [strLeB, decide_eq_true_eq, String.le_iff_toList_le]

/-- ASCII lowercasing of one character. -/
def lowerChar (c : Char) : Char :=
  if 65 ≤ c.toNat ∧ c.toNat ≤ 90 then Char.ofNat (c.toNat + 32) else c

/-- Python str.lower, restricted to ASCII (the only case-folding the
verified code exercises: category names and the fixed seed username). -/
def pyLower (s : String) : String := String.mk (s.data.map lowerChar)

/-- Python str.strip(): remove leading and trailing whitespace. -/
def pyStrip (s : String) : String :=
  String.mk (((s.data.dropWhile Char.isWhitespace).reverse.dropWhile
    Char.isWhitespace).reverse)

/-- Drop every field whose key was already seen, keeping first
occurrences. -/
def dedupFieldsAux (seen : List String) : JObj → JObj
  | [] => []
  | (k, v) :: fs =>
    if k ∈ seen then dedupFieldsAux seen fs
    else (k, v) :: dedupFieldsAux (k :: seen) fs

/-- Drop all but the first occurrence of every key. -/
def dedupFields : JObj → JObj := dedupFieldsAux []

/-- Insert a field into a key-sorted field list. -/
def insField (p : String × JVal) : JObj → JObj
  | [] => [p]
  | q :: qs => if strLeB p.1 q.1 then p :: q :: qs else q :: insField p qs

/-- Insertion sort of a field list by key. -/
def sortFields : JObj → JObj
  | [] => []
  | p :: ps => insField p (sortFields ps)

mutual

/-- Canonical form of a value: dict fields are deduplicated (first occurrence
wins, matching first-occurrence lookup) and sorted by key.  Two values are
equal for Python `==` precisely when their canonical forms coincide. -/
def canon : JVal → JVal
  | .null => .null
  | .num q => .num q
  | .str s => .str s
  | .arr xs => .arr (canonList xs)
  | .obj fs => .obj (sortFields (dedupFields (canonFields fs)))

/-- Canonical forms of the elements of an array. -/
def canonList : List JVal → List JVal
  | [] => []
  | x :: xs => canon x :: canonList xs

/-- Canonical forms of the values of a field list. -/
def canonFields : JObj → JObj
  | [] => []
  | (k, v) :: fs => (k, canon v) :: canonFields fs

end

/-- Python `==` on values: structural equality up to dict key order and
duplicate keys. -/
def pyEq (a b : JVal) : Bool :=
  decide (canon a = canon b)

end JVal

namespace JVal

/-! ### Lemmas about dict operations -/

@[simp] theorem jget?_nil (k : String) : jget? [] k = none := rfl

theorem jget?_cons (k' : String) (v : JVal) (fs : JObj) (k : String) :
    jget? ((k', v) :: fs) k = if k' = k then some v else jget? fs k := rfl

@[simp] theorem jget?_jset_self (fs : JObj) (k : String) (v : JVal) :
    jget? (jset fs k v) k = some v := by
  induction fs with
  | nil => simp [jset, jget?]
  | cons p rest ih =>
    obtain ⟨k', w⟩ := p
    by_cases h : k' = k <;> simp [jset, jget?, h, ih]

theorem jget?_jset_ne (fs : JObj) (k' : String) (v : JVal) (k : String) (h : k' ≠ k) :
    jget? (jset fs k' v) k = jget? fs k := by
  induction fs with
  | nil => simp [jset, jget?, h]
  | cons p rest ih =>
    obtain ⟨k'', w⟩ := p
    by_cases h2 : k'' = k' <;> simp [jset, jget?, h2, ih]
    · subst h2; simp [h, jget?]

theorem jset_jget?_self (fs : JObj) (k : String) (v : JVal) (h : jget? fs k = some v) :
    jset fs k v = fs := by
  induction fs with
  | nil => simp [jget?] at h
  | cons p rest ih =>
    obtain ⟨k', w⟩ := p
    by_cases h2 : k' = k
    · subst h2
      simp [jget?] at h
      simp [jset, h]
    · simp [jget?, h2] at h
      simp [jset, h2, ih h]

@[simp] theorem getD_jset_self (fs : JObj) (k : String) (v : JVal) :
    getD (jset fs k v) k = v := by
  simp [getD]

theorem getD_jset_ne (fs : JObj) (k' : String) (v : JVal) (k : String) (h : k' ≠ k) :
    getD (jset fs k' v) k = getD fs k := by
  simp [getD, jget?_jset_ne fs k' v k h]

@[simp] theorem hasKey_jset_self (fs : JObj) (k : String) (v : JVal) :
    hasKey (jset fs k v) k = true := by
  simp [hasKey]

theorem hasKey_jset_ne (fs : JObj) (k' : String) (v : JVal) (k : String) (h : k' ≠ k) :
    hasKey (jset fs k' v) k = hasKey fs k := by
  simp [hasKey, jget?_jset_ne fs k' v k h]

theorem getD_of_not_hasKey (fs : JObj) (k : String) (h : hasKey fs k = false) :
    getD fs k = JVal.null := by
  cases h2 : jget? fs k with
  | none => simp [getD, h2]
  | some v => rw [hasKey, h2] at h; simp at h

theorem hasKey_of_truthy_getD (fs : JObj) (k : String) (h : truthy (getD fs k) = true) :
    hasKey fs k = true := by
  by_contra h2
  simp at h2
  rw [getD_of_not_hasKey fs k h2] at h
  simp [truthy] at h

/-! ### Lemmas about canonical forms -/

theorem canonList_eq_map (xs : List JVal) : canonList xs = xs.map canon := by
  induction xs with
  | nil => simp [canonList]
  | cons x xs ih => simp [canonList, ih]

theorem canonFields_eq_map (fs : JObj) :
    canonFields fs = fs.map (fun p => (p.1, canon p.2)) := by
  induction fs with
  | nil => simp [canonFields]
  | cons p fs ih => obtain ⟨k, v⟩ := p; simp [canonFields, ih]

@[simp] theorem canonList_eq_nil_iff (xs : List JVal) : canonList xs = [] ↔ xs = [] := by
  rw [canonList_eq_map]; simp

@[simp] theorem canonFields_eq_nil_iff (fs : JObj) : canonFields fs = [] ↔ fs = [] := by
  rw [canonFields_eq_map]; simp

@[simp] theorem dedupFields_eq_nil_iff (fs : JObj) : dedupFields fs = [] ↔ fs = [] := by
  cases fs with
  | nil => simp [dedupFields, dedupFieldsAux]
  | cons p fs => obtain ⟨k, v⟩ := p; simp [dedupFields, dedupFieldsAux]

@[simp] theorem insField_ne_nil (p : String × JVal) (l : JObj) : insField p l ≠ [] := by
  cases l with
  | nil => simp [insField]
  | cons q qs =>
    by_cases h : strLeB p.1 q.1 = true <;> simp [insField, h]

@[simp] theorem sortFields_eq_nil_iff (fs : JObj) : sortFields fs = [] ↔ fs = [] := by
  cases fs with
  | nil => simp [sortFields]
  | cons p ps => simp [sortFields]

theorem truthy_canon (v : JVal) : truthy (canon v) = truthy v := by
  cases v with
  | null => rfl
  | num q => rfl
  | str s => rfl
  | arr xs => cases xs <;> simp [canon, truthy, canonList]
  | obj fs =>
    cases fs with
    | nil => simp [canon, truthy, canonFields, dedupFields, sortFields]
    | cons p ps =>
      simp only [canon, truthy]
      have h : sortFields (dedupFields (canonFields (p :: ps))) ≠ [] := by
        simp
      simp [h]

theorem canon_eq_null_iff (v : JVal) : canon v = .null ↔ v = .null := by
  cases v <;> simp [canon]

theorem canon_eq_num_iff (v : JVal) (q : ℚ) : canon v = .num q ↔ v = .num q := by
  cases v <;> simp [canon]

theorem canon_eq_str_iff (v : JVal) (s : String) : canon v = .str s ↔ v = .str s := by
  cases v <;> simp [canon]

theorem canon_eq_arr (v : JVal) (ws : List JVal) (h : canon v = .arr ws) :
    ∃ zs, v = .arr zs ∧ canonList zs = ws := by
  cases v <;> simp [canon] at h
  case arr zs => exact ⟨zs, rfl, h⟩

theorem canon_eq_obj (v : JVal) (gs : JObj) (h : canon v = .obj gs) :
    ∃ fs, v = .obj fs ∧ sortFields (dedupFields (canonFields fs)) = gs := by
  cases v <;> simp [canon] at h
  case obj fs => exact ⟨fs, rfl, h⟩

/-! ### First-occurrence lookup through canonicalization -/

theorem jget?_filter_ne (fs : JObj) (k k' : String) (h : k ≠ k') :
    jget? (fs.filter (fun p => p.1 ≠ k')) k = jget? fs k := by
  induction fs with
  | nil => rfl
  | cons p rest ih =>
    obtain ⟨k'', w⟩ := p
    rw [List.filter_cons]
    by_cases h2 : k'' = k'
    · rw [if_neg (by simp [h2]), ih, jget?_cons, if_neg ?hne]
      case hne => intro he; exact h (he ▸ h2)
    · rw [if_pos (by simp [h2]), jget?_cons, jget?_cons, ih]

theorem jget?_dedupFieldsAux {seen : List String} {fs : JObj} {k : String} (hk : k ∉ seen) :
    jget? (dedupFieldsAux seen fs) k = jget? fs k := by
  induction fs generalizing seen with
  | nil => rfl
  | cons p fs ih =>
    obtain ⟨k', v⟩ := p
    rw [dedupFieldsAux]
    by_cases hs : k' ∈ seen
    · rw [if_pos hs, jget?_cons, if_neg ?hne, ih hk]
      case hne => intro he; exact hk (he ▸ hs)
    · rw [if_neg hs, jget?_cons, jget?_cons]
      by_cases he : k' = k
      · rw [if_pos he, if_pos he]
      · rw [if_neg he, if_neg he, ih ?hnm]
        case hnm =>
          intro hm
          rcases List.mem_cons.mp hm with hm | hm
          · exact he hm.symm
          · exact hk hm

theorem jget?_dedupFields (fs : JObj) (k : String) :
    jget? (dedupFields fs) k = jget? fs k := by
  rw [dedupFields]
  exact jget?_dedupFieldsAux (List.not_mem_nil k)

theorem jget?_canonFields (fs : JObj) (k : String) :
    jget? (canonFields fs) k = (jget? fs k).map canon := by
  induction fs with
  | nil => simp [canonFields]
  | cons p rest ih =>
    obtain ⟨k', v⟩ := p
    by_cases h : k' = k <;> simp [canonFields, jget?, h, ih]

theorem jget?_insField (p : String × JVal) (l : JObj) (k : String) :
    jget? (insField p l) k = if p.1 = k then some p.2 else jget? l k := by
  obtain ⟨kp, vp⟩ := p
  induction l with
  | nil => rfl
  | cons q qs ih =>
    obtain ⟨kq, vq⟩ := q
    rw [insField]
    by_cases hle : strLeB (kp, vp).1 kq = true
    · rw [if_pos hle, jget?_cons]
    · rw [if_neg hle, jget?_cons, ih, jget?_cons]
      by_cases hk : (kp, vp).1 = k
      · have hne : ¬ (kq = k) := by
          intro he
          exact hle (strLeB_iff.mpr (le_of_eq (hk.trans he.symm)))
        rw [if_pos hk, if_neg hne, if_pos hk]
      · rw [if_neg hk, if_neg hk]

theorem jget?_sortFields (fs : JObj) (k : String) :
    jget? (sortFields fs) k = jget? fs k := by
  induction fs with
  | nil => simp [sortFields]
  | cons p ps ih =>
    rw [sortFields, jget?_insField, ih]
    cases p
    simp [jget?]

theorem jget?_canonObj (fs : JObj) (k : String) :
    jget? (sortFields (dedupFields (canonFields fs))) k = (jget? fs k).map canon := by
  rw [jget?_sortFields, jget?_dedupFields, jget?_canonFields]

/-! ### Facts about Python equality -/

@[simp] theorem pyEq_refl (v : JVal) : pyEq v v = true := by
  simp [pyEq]

theorem pyEq_of_eq {a b : JVal} (h : a = b) : pyEq a b = true := by
  subst h; simp

theorem pyEq_obj_get {a b : JObj} (h : pyEq (.obj a) (.obj b) = true) (k : String) :
    (jget? a k).map canon = (jget? b k).map canon := by
  simp only [pyEq, decide_eq_true_eq, canon] at h
  have h2 := congrArg (fun l => jget? l k) (JVal.obj.inj h)
  simpa only [jget?_canonObj] using h2

theorem pyEq_str_iff (v : JVal) (s : String) : pyEq v (.str s) = true ↔ v = .str s := by
  simp only [pyEq, decide_eq_true_eq]
  constructor
  · intro h
    rw [show canon (.str s) = .str s from rfl] at h
    exact (canon_eq_str_iff v s).mp h
  · intro h; subst h; rfl

theorem pyEq_num_iff (v : JVal) (q : ℚ) : pyEq v (.num q) = true ↔ v = .num q := by
  simp only [pyEq, decide_eq_true_eq]
  constructor
  · intro h
    rw [show canon (.num q) = .num q from rfl] at h
    exact (canon_eq_num_iff v q).mp h
  · intro h; subst h; rfl

theorem pyEq_truthy {a b : JVal} (h : pyEq a b = true) : truthy a = truthy b := by
  simp only [pyEq, decide_eq_true_eq] at h
  rw [← truthy_canon a, ← truthy_canon b, h]

end JVal

namespace JVal

/-! ### Python numeric coercion -/

/-- Numeric value of a digit list. -/
def digitsVal (ds : List Char) : ℕ :=
  ds.foldl (fun a c => 10 * a + (c.toNat - 48)) 0

/-- Parse an unsigned decimal literal (digits with at most one point, at
least one digit overall). -/
def parseUnsigned (cs : List Char) : Option ℚ :=
  let intPart := cs.takeWhile (fun c => c ≠ '.')
  match cs.dropWhile (fun c => c ≠ '.') with
  | [] =>
    if intPart ≠ [] ∧ intPart.all Char.isDigit then some ((digitsVal intPart : ℕ) : ℚ)
    else none
  | _ :: frac =>
    if (intPart ≠ [] ∨ frac ≠ []) ∧ intPart.all Char.isDigit ∧ frac.all Char.isDigit then
      some ((digitsVal intPart : ℕ) + (digitsVal frac : ℕ) / ((10 : ℚ) ^ frac.length))
    else none

/-- Python float-literal parsing of a string, restricted to plain signed
decimal literals; the exotic forms Python additionally accepts (exponents,
inf / nan, underscores, surrounding whitespace) are outside the model and
parse to none here. -/
def parseDec (s : String) : Option ℚ :=
  match s.data with
  | '+' :: rest => parseUnsigned rest
  | '-' :: rest => (parseUnsigned rest).map (fun q => -q)
  | cs => parseUnsigned cs

/-- The numeric payload of a value: Python isinstance(x, (int, float)),
booleans included (they are the numbers 0 / 1 in this model). -/
def asNum? : JVal → Option ℚ
  | .num q => some q
  | _ => none

/-- Python float(x): numbers pass through, strings are parsed, everything
else raises TypeError (modelled as none, like an unparsable string's
ValueError). -/
def pyFloat : JVal → Option ℚ
  | .num q => some q
  | .str s => parseDec s
  | _ => none

/-! ### The line normalizer (normalize_line in src/main.py) -/

/-- The model of str(uuid.uuid4()): a fresh opaque string from a threaded
counter. -/
def genId (c : Nat) : String := "uuid-" ++ toString c

theorem genId_ne_empty (c : Nat) : genId c ≠ "" := by
  intro h
  have h2 := congrArg String.length h
  rw [genId] at h2
  rw [String.length_append] at h2
  simp at h2
  exact absurd h2.1 (by decide)

theorem truthy_genId (c : Nat) : truthy (.str (genId c)) = true := by
  simp [truthy, genId_ne_empty c]

/-- Python iteration over a (truthy) value: lists yield their elements,
strings their characters, dicts their keys; anything else raises TypeError
(none). -/
def pyIterList : JVal → Option (List JVal)
  | .arr xs => some xs
  | .str s => some (s.data.map (fun ch => JVal.str (String.mk [ch])))
  | .obj fs => some (fs.map (fun p => JVal.str p.1))
  | _ => none

/-- dict(si) if si is a dict else an empty dict. -/
def fieldsOf : JVal → JObj
  | .obj fs => fs
  | _ => []

/-- s["id"] = s.get("id") or str(uuid.uuid4()), with the updated counter. -/
def subIdStep (s : JObj) (c : Nat) : JObj × Nat :=
  if truthy (getD s "id") then (jset s "id" (getD s "id"), c)
  else (jset s "id" (.str (genId c)), c + 1)

/-- s["label"] = s.get("label") or "". -/
def subLabelStep (s : JObj) : JObj :=
  jset s "label" (orElseVal (getD s "label") (.str ""))

/-- s["amount"] = float(s.get("amount") or 0), the errors caught to 0.0. -/
def subAmountStep (s : JObj) : JObj :=
  jset s "amount"
    (.num (match pyFloat (orElseVal (getD s "amount") (.num 0)) with
           | some q => q
           | none => 0))

/-- The subitem loop body of normalize_line: dict(si) if si is a dict else
an empty dict, then id / label / amount defaulting (amount float errors are
caught and default to 0.0). -/
def normSub (si : JVal) (c : Nat) : JObj × Nat :=
  (subAmountStep (subLabelStep (subIdStep (fieldsOf si) c).1), (subIdStep (fieldsOf si) c).2)

/-- The subitem loop of normalize_line over the iterated subitems. -/
def normSubs : List JVal → Nat → List JObj × Nat
  | [], c => ([], c)
  | si :: rest, c =>
    let p := normSub si c
    let q := normSubs rest p.2
    (p.1 :: q.1, q.2)

/-- Step 1 of normalize_line: l["id"] = l.get("id") or str(uuid.uuid4()). -/
def normStepId (l : JObj) (c : Nat) : JObj × Nat :=
  if truthy (getD l "id") then (jset l "id" (getD l "id"), c)
  else (jset l "id" (.str (genId c)), c + 1)

/-- Step 2: coerce type into income / expense. -/
def normStepType (l : JObj) : JObj :=
  jset l "type"
    (if getD l "type" = JVal.str "income" ∨ getD l "type" = JVal.str "expense" then getD l "type"
     else JVal.str "expense")

/-- Step 3: default a falsy category from the (already coerced) type. -/
def normStepCat (l : JObj) : JObj :=
  if truthy (getD l "category") then l
  else jset l "category"
    (.str (if getD l "type" = JVal.str "expense" then "sonstige ausgaben" else "sonstige einnahmen"))

/-- Step 4: migrate a numeric legacy amount into an absent / null
base_amount, defaulting to 0.0; a present non-null base_amount is left
untouched (whatever its type). -/
def normStepBase (l : JObj) : JObj :=
  if hasKey l "base_amount" ∧ getD l "base_amount" ≠ JVal.null then l
  else
    match asNum? (getD l "amount") with
    | some q => jset l "base_amount" (.num q)
    | none => jset l "base_amount" (.num 0)

/-- Step 6: clamp is_variable to True / False / None (Python ==-membership,
so the numbers 1 / 0 pass as True / False). -/
def normStepVar (l : JObj) : JObj :=
  jset l "is_variable"
    (if getD l "is_variable" = JVal.num 1 ∨ getD l "is_variable" = JVal.num 0 ∨
        getD l "is_variable" = JVal.null
     then getD l "is_variable" else JVal.null)

/-- normalize_line from src/main.py.  The result is none when the code
raises: a truthy, non-iterable subitems value (TypeError). -/
def normalize_line (raw : JObj) (c : Nat) : Option (JObj × Nat) :=
  let p := normStepId raw c
  let l := normStepBase (normStepCat (normStepType p.1))
  match (if truthy (getD l "subitems") then pyIterList (getD l "subitems") else some []) with
  | none => none
  | some sis =>
    let pr := normSubs sis p.2
    some (normStepVar (jset l "subitems" (.arr (pr.1.map JVal.obj))), pr.2)

/-! ### total_of_line -/

/-- The summand float(x.get("amount") or 0) of total_of_line; none models
the AttributeError on a non-dict subitem or an uncaught float() error. -/
def subAmount? (x : JVal) : Option ℚ :=
  match x with
  | .obj s => pyFloat (orElseVal (getD s "amount") (.num 0))
  | _ => none

/-- sum(float(x.get("amount") or 0) for x in subs). -/
def sumAmounts : List JVal → Option ℚ
  | [] => some 0
  | x :: rest => do
    let a ← subAmount? x
    let r ← sumAmounts rest
    pure (a + r)

/-- total_of_line from src/main.py.  none marks an exception escaping (the
float() calls here are not wrapped in try / except). -/
def total_of_line (l : JObj) : Option ℚ :=
  match orElseVal (getD l "subitems") (.arr []) with
  | .arr xs =>
    if xs ≠ [] then sumAmounts xs
    else pyFloat (orElseVal (getD l "base_amount") (.num 0))
  | _ => pyFloat (orElseVal (getD l "base_amount") (.num 0))

/-! ### The shape of normalizer output -/

/-- A subitem exactly as the normalizer leaves it: a dict with a truthy id,
a label that is truthy or the empty string, and a numeric amount. -/
def normalizedSub (x : JVal) : Bool :=
  match x with
  | .obj s =>
    truthy (getD s "id") &&
    (truthy (getD s "label") || decide (getD s "label" = JVal.str "")) &&
    (asNum? (getD s "amount")).isSome
  | _ => false

/-- A line exactly as the normalizer leaves it; such lines are fixpoints of
normalize_line (see normalize_line_of_normalized). -/
def normalizedLine (l : JObj) : Bool :=
  truthy (getD l "id") &&
  decide (getD l "type" = JVal.str "income" ∨ getD l "type" = JVal.str "expense") &&
  truthy (getD l "category") &&
  hasKey l "base_amount" &&
  decide (getD l "base_amount" ≠ JVal.null) &&
  (match getD l "subitems" with
   | .arr xs => xs.all normalizedSub
   | _ => false) &&
  hasKey l "is_variable" &&
  decide (getD l "is_variable" = JVal.num 1 ∨ getD l "is_variable" = JVal.num 0 ∨
          getD l "is_variable" = JVal.null)

/-! ### More dict lemmas -/

theorem jget?_eq_some_getD {fs : JObj} {k : String} (h : hasKey fs k = true) :
    jget? fs k = some (getD fs k) := by
  rw [hasKey, Option.isSome_iff_exists] at h
  obtain ⟨v, hv⟩ := h
  rw [getD, hv]
  rfl

theorem jset_getD_self {fs : JObj} {k : String} (h : hasKey fs k = true) :
    jset fs k (getD fs k) = fs :=
  jset_jget?_self fs k (getD fs k) (jget?_eq_some_getD h)

theorem hasKey_of_getD_ne_null {fs : JObj} {k : String} (h : getD fs k ≠ JVal.null) :
    hasKey fs k = true := by
  by_contra h2
  simp only [Bool.not_eq_true] at h2
  exact h (getD_of_not_hasKey fs k h2)

/-! ### Properties of the normalizer steps -/

theorem normStepId_fst (l : JObj) (c : Nat) :
    (normStepId l c).1 =
      if truthy (getD l "id") then jset l "id" (getD l "id") else jset l "id" (.str (genId c)) := by
  rw [normStepId]; split <;> rfl

theorem getD_normStepId_ne (l : JObj) (c : Nat) (k : String) (h : k ≠ "id") :
    getD (normStepId l c).1 k = getD l k := by
  rw [normStepId_fst]
  split <;> rw [getD_jset_ne _ _ _ _ (fun he => h he.symm)]

theorem hasKey_normStepId_ne (l : JObj) (c : Nat) (k : String) (h : k ≠ "id") :
    hasKey (normStepId l c).1 k = hasKey l k := by
  rw [normStepId_fst]
  split <;> rw [hasKey_jset_ne _ _ _ _ (fun he => h he.symm)]

theorem truthy_getD_normStepId (l : JObj) (c : Nat) :
    truthy (getD (normStepId l c).1 "id") = true := by
  rw [normStepId_fst]
  by_cases h : truthy (getD l "id") = true
  · rw [if_pos h, getD_jset_self]; exact h
  · rw [if_neg h, getD_jset_self]; exact truthy_genId c

theorem getD_normStepType_ne (l : JObj) (k : String) (h : k ≠ "type") :
    getD (normStepType l) k = getD l k := by
  rw [normStepType, getD_jset_ne _ _ _ _ (fun he => h he.symm)]

theorem hasKey_normStepType_ne (l : JObj) (k : String) (h : k ≠ "type") :
    hasKey (normStepType l) k = hasKey l k := by
  rw [normStepType, hasKey_jset_ne _ _ _ _ (fun he => h he.symm)]

theorem getD_normStepType (l : JObj) :
    getD (normStepType l) "type" = JVal.str "income" ∨
    getD (normStepType l) "type" = JVal.str "expense" := by
  rw [normStepType, getD_jset_self]
  by_cases h : getD l "type" = JVal.str "income" ∨ getD l "type" = JVal.str "expense"
  · rw [if_pos h]; exact h
  · rw [if_neg h]; right; rfl

theorem getD_normStepCat_ne (l : JObj) (k : String) (h : k ≠ "category") :
    getD (normStepCat l) k = getD l k := by
  rw [normStepCat]
  split
  · rfl
  · rw [getD_jset_ne _ _ _ _ (fun he => h he.symm)]

theorem hasKey_normStepCat_ne (l : JObj) (k : String) (h : k ≠ "category") :
    hasKey (normStepCat l) k = hasKey l k := by
  rw [normStepCat]
  split
  · rfl
  · rw [hasKey_jset_ne _ _ _ _ (fun he => h he.symm)]

theorem truthy_getD_normStepCat (l : JObj) :
    truthy (getD (normStepCat l) "category") = true := by
  rw [normStepCat]
  by_cases h : truthy (getD l "category") = true
  · rw [if_pos h]; exact h
  · rw [if_neg h, getD_jset_self]
    split <;> simp [truthy]

theorem getD_normStepBase_ne (l : JObj) (k : String) (h : k ≠ "base_amount") :
    getD (normStepBase l) k = getD l k := by
  rw [normStepBase]
  split
  · rfl
  · split <;> rw [getD_jset_ne _ _ _ _ (fun he => h he.symm)]

theorem hasKey_normStepBase_ne (l : JObj) (k : String) (h : k ≠ "base_amount") :
    hasKey (normStepBase l) k = hasKey l k := by
  rw [normStepBase]
  split
  · rfl
  · split <;> rw [hasKey_jset_ne _ _ _ _ (fun he => h he.symm)]

theorem getD_normStepBase (l : JObj) :
    hasKey (normStepBase l) "base_amount" = true ∧
      getD (normStepBase l) "base_amount" ≠ JVal.null := by
  rw [normStepBase]
  split
  · next h => exact ⟨h.1, h.2⟩
  · split <;> refine ⟨hasKey_jset_self _ _ _, ?_⟩ <;> rw [getD_jset_self] <;> simp

theorem getD_normStepVar_ne (l : JObj) (k : String) (h : k ≠ "is_variable") :
    getD (normStepVar l) k = getD l k := by
  rw [normStepVar, getD_jset_ne _ _ _ _ (fun he => h he.symm)]

theorem hasKey_normStepVar_ne (l : JObj) (k : String) (h : k ≠ "is_variable") :
    hasKey (normStepVar l) k = hasKey l k := by
  rw [normStepVar, hasKey_jset_ne _ _ _ _ (fun he => h he.symm)]

theorem getD_normStepVar (l : JObj) :
    getD (normStepVar l) "is_variable" = JVal.num 1 ∨
    getD (normStepVar l) "is_variable" = JVal.num 0 ∨
    getD (normStepVar l) "is_variable" = JVal.null := by
  rw [normStepVar, getD_jset_self]
  by_cases h : getD l "is_variable" = JVal.num 1 ∨ getD l "is_variable" = JVal.num 0 ∨
      getD l "is_variable" = JVal.null
  · rw [if_pos h]; exact h
  · rw [if_neg h]; right; right; rfl

theorem truthy_getD_subIdStep (s : JObj) (c : Nat) :
    truthy (getD (subIdStep s c).1 "id") = true := by
  rw [subIdStep]
  by_cases h : truthy (getD s "id") = true
  · rw [if_pos h]; rw [getD_jset_self]; exact h
  · rw [if_neg h]; rw [getD_jset_self]; exact truthy_genId c

theorem getD_subLabelStep_ne (s : JObj) (k : String) (h : k ≠ "label") :
    getD (subLabelStep s) k = getD s k := by
  rw [subLabelStep, getD_jset_ne _ _ _ _ (fun he => h he.symm)]

theorem getD_subAmountStep_ne (s : JObj) (k : String) (h : k ≠ "amount") :
    getD (subAmountStep s) k = getD s k := by
  rw [subAmountStep, getD_jset_ne _ _ _ _ (fun he => h he.symm)]

theorem normSub_normalized (si : JVal) (c : Nat) :
    normalizedSub (JVal.obj (normSub si c).1) = true := by
  rw [normSub]
  simp only [normalizedSub, Bool.and_eq_true, Bool.or_eq_true, decide_eq_true_eq]
  refine ⟨⟨?_, ?_⟩, ?_⟩
  · rw [getD_subAmountStep_ne _ _ (by decide), getD_subLabelStep_ne _ _ (by decide)]
    exact truthy_getD_subIdStep _ c
  · rw [getD_subAmountStep_ne _ _ (by decide), subLabelStep, getD_jset_self, orElseVal]
    split
    · next h => left; exact h
    · right; rfl
  · rw [subAmountStep, getD_jset_self]
    simp [asNum?]

theorem normSubs_all (sis : List JVal) (c : Nat) :
    ((normSubs sis c).1.map JVal.obj).all normalizedSub = true := by
  induction sis generalizing c with
  | nil => rfl
  | cons si rest ih =>
    rw [normSubs]
    simp only [List.map_cons, List.all_cons, Bool.and_eq_true]
    exact ⟨normSub_normalized si c, ih _⟩

/-- Every successful run of the normalizer produces a normalized line. -/
theorem normalize_line_normalized {raw : JObj} {c : Nat} {y : JObj} {c2 : Nat}
    (h : normalize_line raw c = some (y, c2)) : normalizedLine y = true := by
  rw [normalize_line] at h
  set l3 := normStepBase (normStepCat (normStepType (normStepId raw c).1)) with hl3
  cases hit : (if truthy (getD l3 "subitems") then pyIterList (getD l3 "subitems") else some []) with
  | none => rw [hit] at h; exact absurd h (by simp)
  | some sis =>
    rw [hit] at h
    simp only [Option.some.injEq, Prod.mk.injEq] at h
    obtain ⟨hy, _⟩ := h
    subst hy
    rw [normalizedLine]
    simp only [Bool.and_eq_true, decide_eq_true_eq]
    refine ⟨⟨⟨⟨⟨⟨⟨?_, ?_⟩, ?_⟩, ?_⟩, ?_⟩, ?_⟩, ?_⟩, ?_⟩
    · rw [getD_normStepVar_ne _ _ (by decide), getD_jset_ne _ _ _ _ (by decide), hl3,
        getD_normStepBase_ne _ _ (by decide), getD_normStepCat_ne _ _ (by decide),
        getD_normStepType_ne _ _ (by decide)]
      exact truthy_getD_normStepId raw c
    · rw [getD_normStepVar_ne _ _ (by decide), getD_jset_ne _ _ _ _ (by decide), hl3,
        getD_normStepBase_ne _ _ (by decide), getD_normStepCat_ne _ _ (by decide)]
      exact getD_normStepType _
    · rw [getD_normStepVar_ne _ _ (by decide), getD_jset_ne _ _ _ _ (by decide), hl3,
        getD_normStepBase_ne _ _ (by decide)]
      exact truthy_getD_normStepCat _
    · rw [hasKey_normStepVar_ne _ _ (by decide), hasKey_jset_ne _ _ _ _ (by decide), hl3]
      exact (getD_normStepBase _).1
    · rw [getD_normStepVar_ne _ _ (by decide), getD_jset_ne _ _ _ _ (by decide), hl3]
      exact (getD_normStepBase _).2
    · rw [getD_normStepVar_ne _ _ (by decide), getD_jset_self]
      exact normSubs_all sis (normStepId raw c).2
    · rw [normStepVar]
      exact hasKey_jset_self _ _ _
    · exact getD_normStepVar _

theorem normSub_of_normalized {x : JVal} (h : normalizedSub x = true) (c : Nat) :
    ∃ fs : JObj, x = .obj fs ∧ normSub x c = (fs, c) := by
  cases x with
  | obj s =>
    refine ⟨s, rfl, ?_⟩
    rw [normalizedSub] at h
    simp only [Bool.and_eq_true, Bool.or_eq_true, decide_eq_true_eq] at h
    obtain ⟨⟨hid, hlab⟩, hamt⟩ := h
    have hids : subIdStep (fieldsOf (JVal.obj s)) c = (s, c) := by
      rw [fieldsOf, subIdStep, if_pos hid, jset_getD_self (hasKey_of_truthy_getD _ _ hid)]
    have hlabs : subLabelStep s = s := by
      rw [subLabelStep]
      have hlabeq : orElseVal (getD s "label") (.str "") = getD s "label" := by
        rw [orElseVal]
        rcases hlab with hlab | hlab
        · rw [if_pos hlab]
        · rw [hlab]; rfl
      have hklab : hasKey s "label" = true := by
        rcases hlab with hlab | hlab
        · exact hasKey_of_truthy_getD _ _ hlab
        · apply hasKey_of_getD_ne_null; rw [hlab]; simp
      rw [hlabeq, jset_getD_self hklab]
    have hamts : subAmountStep s = s := by
      obtain ⟨q, hq⟩ : ∃ q, getD s "amount" = JVal.num q := by
        cases hg : getD s "amount" <;> rw [hg] at hamt <;> simp [asNum?] at hamt
        exact ⟨_, rfl⟩
      have hfl : pyFloat (orElseVal (getD s "amount") (.num 0)) = some q := by
        rw [hq, orElseVal]
        by_cases hq0 : q = 0
        · subst hq0; rw [if_neg (by simp [truthy])]; rfl
        · rw [if_pos (by simp [truthy, hq0])]; rfl
      have hkamt : hasKey s "amount" = true := by
        apply hasKey_of_getD_ne_null; rw [hq]; simp
      rw [subAmountStep, hfl, show JVal.num q = getD s "amount" from hq.symm,
        jset_getD_self hkamt]
    rw [normSub, hids, hlabs, hamts]
  | null => simp [normalizedSub] at h
  | num q => simp [normalizedSub] at h
  | str s => simp [normalizedSub] at h
  | arr xs => simp [normalizedSub] at h

theorem normSubs_of_normalized {xs : List JVal} (h : xs.all normalizedSub = true) (c : Nat) :
    ∃ ys : List JObj, normSubs xs c = (ys, c) ∧ ys.map JVal.obj = xs := by
  induction xs generalizing c with
  | nil => exact ⟨[], rfl, rfl⟩
  | cons x rest ih =>
    simp only [List.all_cons, Bool.and_eq_true] at h
    obtain ⟨fs, hx, hns⟩ := normSub_of_normalized h.1 c
    obtain ⟨ys, hys, hmap⟩ := ih h.2 c
    refine ⟨fs :: ys, ?_, ?_⟩
    · rw [normSubs, hns]
      simp only
      rw [hys]
    · simp [hmap, hx.symm]

/-- A normalized line is a fixpoint of the normalizer, at any counter, and
consumes no fresh ids. -/
theorem normalize_line_of_normalized {y : JObj} (h : normalizedLine y = true) (c : Nat) :
    normalize_line y c = some (y, c) := by
  rw [normalizedLine] at h
  simp only [Bool.and_eq_true, decide_eq_true_eq] at h
  obtain ⟨⟨⟨⟨⟨⟨⟨hid, hty⟩, hcat⟩, hbk⟩, hbn⟩, hsub⟩, hvk⟩, hvv⟩ := h
  have hstep1 : normStepId y c = (y, c) := by
    rw [normStepId, if_pos hid, jset_getD_self (hasKey_of_truthy_getD _ _ hid)]
  have hstep2 : normStepType y = y := by
    rw [normStepType, if_pos hty]
    apply jset_getD_self
    apply hasKey_of_getD_ne_null
    rcases hty with hty | hty <;> rw [hty] <;> simp
  have hstep3 : normStepCat y = y := by
    rw [normStepCat, if_pos hcat]
  have hstep4 : normStepBase y = y := by
    rw [normStepBase, if_pos ⟨hbk, hbn⟩]
  obtain ⟨xs, hxs, hall⟩ : ∃ xs, getD y "subitems" = JVal.arr xs ∧ xs.all normalizedSub = true := by
    cases hg : getD y "subitems" <;> rw [hg] at hsub
    case arr xs => exact ⟨xs, rfl, hsub⟩
    all_goals exact absurd hsub (by simp)
  have hstep6 : normStepVar y = y := by
    rw [normStepVar, if_pos hvv]
    exact jset_getD_self hvk
  have hksub : hasKey y "subitems" = true := by
    apply hasKey_of_getD_ne_null; rw [hxs]; simp
  rw [normalize_line, hstep1]
  simp only [hstep2, hstep3, hstep4, hxs]
  by_cases hxe : xs = []
  · subst hxe
    rw [if_neg (by simp [truthy])]
    simp only [normSubs, List.map_nil]
    rw [show JVal.arr [] = getD y "subitems" from hxs.symm, jset_getD_self hksub, hstep6]
  · rw [if_pos (by simp [truthy, hxe]), pyIterList]
    obtain ⟨ys, hys, hmap⟩ := normSubs_of_normalized hall c
    simp only [hys, hmap]
    rw [show JVal.arr xs = getD y "subitems" from hxs.symm, jset_getD_self hksub, hstep6]

/-! ### Normalized shape is invariant under Python equality -/

theorem canonObj_get {a b : JObj} (h : canon (JVal.obj a) = canon (JVal.obj b)) (k : String) :
    (jget? a k).map canon = (jget? b k).map canon := by
  rw [canon, canon] at h
  have h2 := congrArg (fun l => jget? l k) (JVal.obj.inj h)
  simpa only [jget?_canonObj] using h2

theorem canon_getD_congr {a b : JObj} (h : canon (JVal.obj a) = canon (JVal.obj b)) (k : String) :
    canon (getD a k) = canon (getD b k) := by
  have h2 := canonObj_get h k
  cases ha : jget? a k with
  | none =>
    cases hb : jget? b k with
    | none => rw [getD, getD, ha, hb]
    | some w => rw [ha, hb] at h2; exact absurd h2 (by simp)
  | some v =>
    cases hb : jget? b k with
    | none => rw [ha, hb] at h2; exact absurd h2 (by simp)
    | some w =>
      rw [ha, hb] at h2
      simp only [Option.map_some', Option.some.injEq] at h2
      rw [getD, getD, ha, hb]
      exact h2

theorem hasKey_congr {a b : JObj} (h : canon (JVal.obj a) = canon (JVal.obj b)) (k : String) :
    hasKey a k = hasKey b k := by
  have h2 := canonObj_get h k
  rw [hasKey, hasKey]
  cases ha : jget? a k <;> cases hb : jget? b k <;> rw [ha, hb] at h2 <;> simp at h2 ⊢

theorem truthy_getD_congr {a b : JObj} (h : canon (JVal.obj a) = canon (JVal.obj b)) (k : String) :
    truthy (getD a k) = truthy (getD b k) := by
  rw [← truthy_canon (getD a k), ← truthy_canon (getD b k), canon_getD_congr h k]

theorem getD_congr_str {a b : JObj} (h : canon (JVal.obj a) = canon (JVal.obj b)) (k : String)
    {s : String} (ha : getD a k = JVal.str s) : getD b k = JVal.str s := by
  have h2 := canon_getD_congr h k
  rw [ha] at h2
  exact (canon_eq_str_iff _ s).mp h2.symm

theorem getD_congr_num {a b : JObj} (h : canon (JVal.obj a) = canon (JVal.obj b)) (k : String)
    {q : ℚ} (ha : getD a k = JVal.num q) : getD b k = JVal.num q := by
  have h2 := canon_getD_congr h k
  rw [ha] at h2
  exact (canon_eq_num_iff _ q).mp h2.symm

theorem getD_congr_null {a b : JObj} (h : canon (JVal.obj a) = canon (JVal.obj b)) (k : String)
    (ha : getD a k = JVal.null) : getD b k = JVal.null := by
  have h2 := canon_getD_congr h k
  rw [ha] at h2
  exact (canon_eq_null_iff _).mp h2.symm

theorem normalizedSub_of_canon_eq {x x' : JVal} (h : canon x = canon x')
    (hx : normalizedSub x = true) : normalizedSub x' = true := by
  cases x with
  | obj a =>
    obtain ⟨b, hb, _⟩ : ∃ fs, x' = .obj fs ∧
        sortFields (dedupFields (canonFields fs)) = sortFields (dedupFields (canonFields a)) := by
      have h2 : canon x' = .obj (sortFields (dedupFields (canonFields a))) := by
        rw [← h]; rfl
      exact canon_eq_obj x' _ h2
    subst hb
    rw [normalizedSub] at hx ⊢
    simp only [Bool.and_eq_true, Bool.or_eq_true, decide_eq_true_eq] at hx ⊢
    obtain ⟨⟨hid, hlab⟩, hamt⟩ := hx
    refine ⟨⟨?_, ?_⟩, ?_⟩
    · rw [← truthy_getD_congr h "id"]; exact hid
    · rcases hlab with hlab | hlab
      · left; rw [← truthy_getD_congr h "label"]; exact hlab
      · right; exact getD_congr_str h "label" hlab
    · obtain ⟨q, hq⟩ : ∃ q, getD a "amount" = JVal.num q := by
        cases hg : getD a "amount" <;> rw [hg] at hamt <;> simp [asNum?] at hamt
        exact ⟨_, rfl⟩
      rw [getD_congr_num h "amount" hq]
      rfl
  | null => simp [normalizedSub] at hx
  | num q => simp [normalizedSub] at hx
  | str s => simp [normalizedSub] at hx
  | arr xs => simp [normalizedSub] at hx

theorem all_normalizedSub_of_canonList_eq {ys zs : List JVal} (h : canonList ys = canonList zs)
    (hall : ys.all normalizedSub = true) : zs.all normalizedSub = true := by
  induction ys generalizing zs with
  | nil =>
    cases zs with
    | nil => rfl
    | cons z zs => rw [canonList, canonList] at h; exact absurd h (by simp)
  | cons y ys ih =>
    cases zs with
    | nil => rw [canonList, canonList] at h; exact absurd h (by simp)
    | cons z zs =>
      rw [canonList, canonList] at h
      simp only [List.cons.injEq] at h
      simp only [List.all_cons, Bool.and_eq_true] at hall ⊢
      exact ⟨normalizedSub_of_canon_eq h.1 hall.1, ih h.2 hall.2⟩

/-- The normalized-line predicate only depends on a line up to Python
equality: a line that compares == to a normalized line is itself
normalized. -/
theorem normalizedLine_of_pyEq {a b : JObj} (heq : pyEq (JVal.obj a) (JVal.obj b) = true)
    (h : normalizedLine a = true) : normalizedLine b = true := by
  have hc : canon (JVal.obj a) = canon (JVal.obj b) := by
    simpa only [pyEq, decide_eq_true_eq] using heq
  rw [normalizedLine] at h ⊢
  simp only [Bool.and_eq_true, decide_eq_true_eq] at h ⊢
  obtain ⟨⟨⟨⟨⟨⟨⟨hid, hty⟩, hcat⟩, hbk⟩, hbn⟩, hsub⟩, hvk⟩, hvv⟩ := h
  refine ⟨⟨⟨⟨⟨⟨⟨?_, ?_⟩, ?_⟩, ?_⟩, ?_⟩, ?_⟩, ?_⟩, ?_⟩
  · rw [← truthy_getD_congr hc "id"]; exact hid
  · rcases hty with hty | hty
    · left; exact getD_congr_str hc "type" hty
    · right; exact getD_congr_str hc "type" hty
  · rw [← truthy_getD_congr hc "category"]; exact hcat
  · rw [← hasKey_congr hc "base_amount"]; exact hbk
  · intro hnull
    exact hbn (getD_congr_null hc.symm "base_amount" hnull)
  · obtain ⟨ys, hys, hall⟩ : ∃ ys, getD a "subitems" = JVal.arr ys ∧ ys.all normalizedSub = true := by
      cases hg : getD a "subitems" <;> rw [hg] at hsub
      case arr xs => exact ⟨xs, rfl, hsub⟩
      all_goals exact absurd hsub (by simp)
    have h2 := canon_getD_congr hc "subitems"
    rw [hys] at h2
    obtain ⟨zs, hzs, hcl⟩ := canon_eq_arr _ _ h2.symm
    rw [hzs]
    exact all_normalizedSub_of_canonList_eq hcl.symm hall
  · rw [← hasKey_congr hc "is_variable"]; exact hvk
  · rcases hvv with hvv | hvv | hvv
    · left; exact getD_congr_num hc "is_variable" hvv
    · right; left; exact getD_congr_num hc "is_variable" hvv
    · right; right; exact getD_congr_null hc "is_variable" hvv

end JVal

open JVal

/-! ### The dataset and the migration runner -/

/-- The persisted dataset: lines, users, and the schema version (none when
the version key is absent from the stored document). -/
structure Dataset where
  lines : List JObj
  users : List JObj
  version : Option JVal
deriving Repr, DecidableEq

/-- ensure_db_shapes from src/main.py: setdefault of lines / users (implicit
in the structure) and of version to 1. -/
def ensure_db_shapes (d : Dataset) : Dataset :=
  { d with version := some (d.version.getD (JVal.num 1)) }

/-- Python != on two lists of dicts (pointwise ==, order-insensitive inside
each dict), as used by migrate_db to decide whether anything changed. -/
def pyEqLines (a b : List JObj) : Bool :=
  decide (a.map (fun l => canon (JVal.obj l)) = b.map (fun l => canon (JVal.obj l)))

/-- The comprehension [normalize_line(l) for l in lines], threading the
fresh-id counter; none when any line makes the normalizer raise. -/
def mapNormalize : List JObj → Nat → Option (List JObj × Nat)
  | [], c => some ([], c)
  | l :: rest, c => do
    let p ← normalize_line l c
    let q ← mapNormalize rest p.2
    pure (p.1 :: q.1, q.2)

/-- migrate_db from src/main.py: normalize every stored line and persist
with version 1 when anything changed (by Python ==) or the version key was
absent. -/
def migrate_db (d : Dataset) (c : Nat) : Option (Dataset × Nat) :=
  let d2 := ensure_db_shapes d
  match mapNormalize d2.lines c with
  | none => none
  | some p =>
    if pyEqLines p.1 d2.lines = false ∨ d2.version = none then
      some ({ d2 with lines := p.1, version := some (JVal.num 1) }, p.2)
    else some (d2, p.2)

/-- The attach-if-orphan body shared by the seeding and orphan-attachment
migrations: if not l.get("user_id"): l["user_id"] = v. -/
def attachUser (v : JVal) (l : JObj) : JObj :=
  if truthy (getD l "user_id") then l else jset l "user_id" v

/-- migrate_add_default_user from src/main.py: seed the fixed user when no
users exist and attach every userless line to it.  The password hash and
creation time are opaque inputs of the model. -/
def migrate_add_default_user (d : Dataset) (c : Nat) (pwHash : String) (createdAt : ℚ) :
    Dataset × Nat :=
  if d.users = [] then
    ({ d with
        users := [[("id", .str (genId c)), ("username", .str "thom7e"),
                   ("password_hash", .str pwHash), ("created_at", .num createdAt)]],
        lines := d.lines.map (attachUser (.str (genId c))) },
     c + 1)
  else (d, c)

/-- u.get("username", "").lower(): absent key defaults to the empty string,
a present non-string raises AttributeError (none). -/
def usernameLower? (u : JObj) : Option String :=
  match jget? u "username" with
  | none => some ""
  | some (.str s) => some (pyLower s)
  | some _ => none

/-- next((u for u in users if u.get("username","").lower() == "thom7e"), _):
outer none is a crash while testing, inner none means no match. -/
def findPref : List JObj → Option (Option JObj)
  | [] => some none
  | u :: rest =>
    match usernameLower? u with
    | none => none
    | some s => if s = "thom7e" then some (some u) else findPref rest

/-- migrate_attach_orphans from src/main.py: attach every line without a
truthy user_id to the preferred user (thom7e if present, else the first
user); none models the AttributeError / KeyError on malformed users. -/
def migrate_attach_orphans (d : Dataset) : Option Dataset :=
  match d.users with
  | [] => some d
  | u0 :: _ =>
    match findPref d.users with
    | none => none
    | some found =>
      match jget? (found.getD u0) "id" with
      | none => none
      | some prefId =>
        some { d with lines := d.lines.map (attachUser prefId) }

/-- The startup migration pipeline of src/main.py (_startup): schema
migration, default-user seeding, orphan attachment, composed through the
persisted dataset. -/
def startup (d : Dataset) (c : Nat) (pwHash : String) (createdAt : ℚ) :
    Option (Dataset × Nat) :=
  match migrate_db d c with
  | none => none
  | some p =>
    let p2 := migrate_add_default_user p.1 p.2 pwHash createdAt
    match migrate_attach_orphans p2.1 with
    | none => none
    | some d3 => some (d3, p2.2)

/-! ### The aggregation engine -/

/-- A Python loop over a list in which every step can raise: all results,
or none as soon as one step raises. -/
def optMapList {α β : Type} (f : α → Option β) : List α → Option (List β)
  | [] => some []
  | x :: xs => do
    let y ← f x
    let ys ← optMapList f xs
    pure (y :: ys)

/-- l.get("category") or "ohne". -/
def catOrOhne (l : JObj) : JVal :=
  orElseVal (getD l "category") (.str "ohne")

/-- The string payload of a value, if it is one. -/
def asStr? : JVal → Option String
  | .str s => some s
  | _ => none

/-- Insert into a list sorted by the boolean order le. -/
def insBy {α : Type} (le : α → α → Bool) (a : α) : List α → List α
  | [] => [a]
  | b :: bs => if le a b then a :: b :: bs else b :: insBy le a bs

/-- Insertion sort by the boolean order le (Python sorted). -/
def sortBy {α : Type} (le : α → α → Bool) : List α → List α
  | [] => []
  | a :: as => insBy le a (sortBy le as)

/-- Insertion sort of strings, ascending. -/
def sortStrings : List String → List String :=
  sortBy strLeB

/-- GET /api/categories: filter the stored (raw) lines to the requesting
user, collect category-or-"ohne", deduplicate and sort ascending.  The
Python sorted(set(...)) is modelled for string categories; a truthy
non-string category makes the result none (Python would raise while
sorting mixed types or hashing an unhashable value). -/
def categories (lines : List JObj) (uid : String) : Option (List String) :=
  let mine := lines.filter (fun l => pyEq (getD l "user_id") (.str uid))
  match optMapList asStr? (mine.map catOrOhne) with
  | none => none
  | some cs => some (sortStrings cs.dedup)

/-- Modelled from the spec claim, for comparison only: the categories
listing as the spec describes it, normalizing every line of the dataset
before filtering and collecting. -/
def categoriesSpecNormalized (lines : List JObj) (uid : String) (c : Nat) :
    Option (List String) :=
  match mapNormalize lines c with
  | none => none
  | some p => categories p.1 uid

/-- The result record of GET /api/summary. -/
structure SummaryOut where
  income : ℚ
  expense : ℚ
  net : ℚ
  categories : List (JVal × ℚ)
deriving Repr, DecidableEq

/-- sum(total_of_line(l) for l in ls); none when a total raises. -/
def sumTotals : List JObj → Option ℚ
  | [] => some 0
  | l :: rest => do
    let t ← total_of_line l
    let r ← sumTotals rest
    pure (t + r)

/-- Whether a value can be a Python dict key (hashable). -/
def hashable : JVal → Bool
  | .arr _ => false
  | .obj _ => false
  | _ => true

/-- cats.setdefault(k, 0.0); cats[k] += q on an insertion-ordered dict. -/
def addCat (m : List (JVal × ℚ)) (k : JVal) (q : ℚ) : List (JVal × ℚ) :=
  match m with
  | [] => [(k, q)]
  | (k', v) :: rest => if k' = k then (k', v + q) :: rest else (k', v) :: addCat rest k q

/-- One line of the per-category loop of summary. -/
def catStep (m : List (JVal × ℚ)) (l : JObj) : Option (List (JVal × ℚ)) := do
  let t ← total_of_line l
  if hashable (catOrOhne l) then
    pure (addCat m (catOrOhne l) (if getD l "type" = JVal.str "income" then t else -t))
  else none

/-- The category loop of summary from a given accumulator. -/
def catFoldFrom : List (JVal × ℚ) → List JObj → Option (List (JVal × ℚ))
  | m, [] => some m
  | m, l :: rest =>
    match catStep m l with
    | none => none
    | some m2 => catFoldFrom m2 rest

/-- The category totals of summary, in insertion order. -/
def catFold (ls : List JObj) : Option (List (JVal × ℚ)) :=
  catFoldFrom [] ls

/-- Key order for sorted(cats.items()): strings (or numbers) ascending. -/
def keyLeB : JVal → JVal → Bool
  | .str a, .str b => decide (a ≤ b)
  | .num a, .num b => decide (a ≤ b)
  | _, _ => false

/-- Whether sorted() can compare all the category keys (all strings or all
numbers). -/
def keysSortable (m : List (JVal × ℚ)) : Bool :=
  m.all (fun p => (asStr? p.1).isSome) || m.all (fun p => (asNum? p.1).isSome)

/-- Insertion sort of category totals by key. -/
def sortCats : List (JVal × ℚ) → List (JVal × ℚ) :=
  sortBy (fun p q => keyLeB p.1 q.1)

/-- GET /api/summary from src/main.py: filter to the user's lines,
normalize them, then income / expense / net and signed per-category totals
sorted by category; none when an exception escapes (a non-numeric stored
base_amount, an unhashable or unsortable category key, or normalize
raising). -/
def summary (lines : List JObj) (uid : String) (c : Nat) : Option SummaryOut :=
  match mapNormalize (lines.filter (fun l => pyEq (getD l "user_id") (.str uid))) c with
  | none => none
  | some p => do
    let inc ← sumTotals (p.1.filter (fun l => getD l "type" = JVal.str "income"))
    let ex ← sumTotals (p.1.filter (fun l => getD l "type" = JVal.str "expense"))
    let cats ← catFold p.1
    if keysSortable cats then
      pure ⟨inc, ex, inc - ex, sortCats cats⟩
    else none

/-! ### The category editor and line updates -/

/-- The outcome of a request handler: a result, an HTTPException with a
status code, or an uncaught exception reaching the framework. -/
inductive PyResult (α : Type) where
  | ok (a : α) : PyResult α
  | httpError (code : Nat) : PyResult α
  | crash : PyResult α
deriving Repr, DecidableEq

/-- (x or "").strip(): a falsy value strips to the empty string, a truthy
non-string raises AttributeError (none). -/
def pyStripOrEmpty? (v : JVal) : Option String :=
  if truthy v then
    match v with
    | .str s => some (pyStrip s)
    | _ => none
  else some ""

/-- (l.get("category") or "").lower(); none is the AttributeError on a
truthy non-string category. -/
def lowerCat? (l : JObj) : Option String :=
  match orElseVal (getD l "category") (.str "") with
  | .str s => some (pyLower s)
  | _ => none

/-- The per-line body of the rename_category loop. -/
def renameLine (old nw uid : String) (l : JObj) : Option JObj :=
  if pyEq (getD l "user_id") (.str uid) = false then some l
  else
    match lowerCat? l with
    | none => none
    | some cl => some (if cl = pyLower old then jset l "category" (.str nw) else l)

/-- POST /api/categories/rename from src/main.py. -/
def rename_category (payload : JObj) (lines : List JObj) (uid : String) :
    PyResult (List JObj) :=
  match pyStripOrEmpty? (getD payload "old"), pyStripOrEmpty? (getD payload "new") with
  | some old, some nw =>
    if old = "" ∨ nw = "" then .httpError 422
    else
      match optMapList (renameLine old nw uid) lines with
      | none => .crash
      | some ls => .ok ls
  | _, _ => .crash

/-- The fallback category by line type used by delete_category:
"sonstige einnahmen" for income, else "sonstige ausgaben". -/
def defaultCatFor (l : JObj) : String :=
  if orElseVal (getD l "type") (.str "expense") = JVal.str "income" then "sonstige einnahmen"
  else "sonstige ausgaben"

/-- The per-line body of the delete_category loop: a falsy target (absent
or empty string) falls back to the type default. -/
def deleteCatLine (name : String) (target : Option String) (uid : String) (l : JObj) :
    Option JObj :=
  if pyEq (getD l "user_id") (.str uid) = false then some l
  else
    match lowerCat? l with
    | none => none
    | some cl =>
      if cl = pyLower name then
        some (jset l "category"
          (.str (match target with
                 | some t => if t = "" then defaultCatFor l else t
                 | none => defaultCatFor l)))
      else some l

/-- DELETE /api/categories/(name) from src/main.py; the second component is
the renamed_to field of the response (target or None). -/
def delete_category (lines : List JObj) (name : String) (target : Option String)
    (uid : String) : PyResult (List JObj × Option String) :=
  match optMapList (deleteCatLine name target uid) lines with
  | none => .crash
  | some ls =>
    .ok (ls, match target with
             | some t => if t = "" then none else some t
             | none => none)

/-- Python str(x).  Strings pass through exactly; the numeric and composite
renderings (unobserved by any verified property) are schematic. -/
def pyToStr : JVal → String
  | .str s => s
  | .null => "None"
  | .num q => toString q
  | .arr _ => "<list>"
  | .obj _ => "<dict>"

/-- The line lookup shared by the per-line endpoints: first index whose id
and user_id both == the given strings. -/
def lineMatches (lid uid : String) (l : JObj) : Bool :=
  pyEq (getD l "id") (.str lid) && pyEq (getD l "user_id") (.str uid)

/-- next((i for i, l in enumerate(lines) if ...), -1), as an Option. -/
def firstMatch (lines : List JObj) (lid uid : String) : Option Nat :=
  lines.findIdx? (lineMatches lid uid)

/-- The subitem constructor of update_line's subitems branch: si.get on a
non-dict raises AttributeError (none); the float error is caught to 0.0. -/
def buildSub (si : JVal) (c : Nat) : Option (JObj × Nat) :=
  match si with
  | .obj s =>
    some
      ([("id", (if truthy (getD s "id") then getD s "id" else .str (genId c))),
        ("label", orElseVal (getD s "label") (.str "")),
        ("amount", .num (match pyFloat (orElseVal (getD s "amount") (.num 0)) with
                         | some q => q
                         | none => 0))],
       if truthy (getD s "id") then c else c + 1)
  | _ => none

/-- The subitem loop of update_line. -/
def buildSubs : List JVal → Nat → Option (List JObj × Nat)
  | [], c => some ([], c)
  | si :: rest, c => do
    let p ← buildSub si c
    let q ← buildSubs rest p.2
    pure (p.1 :: q.1, q.2)

/-- The label branch of update_line: str(payload.get("label") or "")
stripped, falling back to the current label, falling back to "". -/
def updLabel (payload cur : JObj) : JObj :=
  if hasKey payload "label" then
    jset cur "label"
      (if pyStrip (pyToStr (orElseVal (getD payload "label") (.str ""))) ≠ "" then
        .str (pyStrip (pyToStr (orElseVal (getD payload "label") (.str ""))))
       else orElseVal (getD cur "label") (.str ""))
  else cur

/-- The type branch of update_line: strip (AttributeError on a truthy
non-string), assign only when income / expense. -/
def updType (payload cur : JObj) : Option JObj :=
  if hasKey payload "type" then
    match pyStripOrEmpty? (getD payload "type") with
    | none => none
    | some t => some (if t = "income" ∨ t = "expense" then jset cur "type" (.str t) else cur)
  else some cur

/-- The category branch of update_line: falsy payload category defaults by
the current type. -/
def updCategory (payload cur : JObj) : JObj :=
  if hasKey payload "category" then
    jset cur "category"
      (orElseVal (getD payload "category")
        (.str (if pyEq (getD cur "type") (.str "expense") = true then "sonstige ausgaben"
               else "sonstige einnahmen")))
  else cur

/-- The base_amount branch of update_line: float(payload value or 0.0),
and on TypeError / ValueError the assignment is skipped (pass), keeping
the stored value. -/
def updBase (payload cur : JObj) : JObj :=
  if hasKey payload "base_amount" then
    match pyFloat (orElseVal (getD payload "base_amount") (.num 0)) with
    | some q => jset cur "base_amount" (.num q)
    | none => cur
  else cur

/-- The subitems branch of update_line: only a list payload value is
rebuilt; anything else leaves the stored subitems. -/
def updSubs (payload cur : JObj) (c : Nat) : Option (JObj × Nat) :=
  match jget? payload "subitems" with
  | some (.arr sis) =>
    match buildSubs sis c with
    | none => none
    | some p => some (jset cur "subitems" (.arr (p.1.map JVal.obj)), p.2)
  | _ => some (cur, c)

/-- PUT /api/lines/(line_id) from src/main.py: the result carries the new
line list, the updated line, and the counter. -/
def update_line (lines : List JObj) (lid : String) (payload : JObj) (uid : String)
    (c : Nat) : PyResult (List JObj × JObj × Nat) :=
  match firstMatch lines lid uid with
  | none => .httpError 404
  | some i =>
    match lines.get? i with
    | none => .crash
    | some cur =>
      match updType payload (updLabel payload cur) with
      | none => .crash
      | some cur2 =>
        match updSubs payload (updBase payload (updCategory payload cur2)) c with
        | none => .crash
        | some p =>
          .ok (lines.set i (jset p.1 "user_id" (.str uid)),
               jset p.1 "user_id" (.str uid), p.2)

/-- POST /api/lines/(line_id)/subitems from src/main.py: normalize the
stored line, then append the new subitem built from the request body. -/
def add_subitem (lines : List JObj) (lid : String) (si : JObj) (uid : String) (c : Nat) :
    PyResult (List JObj × JObj × Nat) :=
  match firstMatch lines lid uid with
  | none => .httpError 404
  | some i =>
    match lines.get? i with
    | none => .crash
    | some stored =>
      match normalize_line stored c with
      | none => .crash
      | some p =>
        match getD p.1 "subitems" with
        | .arr xs =>
          let newSub : JObj :=
            [("id", (if truthy (getD si "id") then getD si "id" else .str (genId p.2))),
             ("label", orElseVal (getD si "label") (.str "")),
             ("amount", .num (match pyFloat (orElseVal (getD si "amount") (.num 0)) with
                              | some q => q
                              | none => 0))]
          let line := jset p.1 "subitems" (.arr (xs ++ [JVal.obj newSub]))
          .ok (lines.set i line, line,
               if truthy (getD si "id") then p.2 else p.2 + 1)
        | _ => .crash

/-! ### Lemmas about the loop combinators -/

theorem optMapList_length {α β : Type} {f : α → Option β} {xs : List α} {ys : List β}
    (h : optMapList f xs = some ys) : ys.length = xs.length := by
  induction xs generalizing ys with
  | nil =>
    rw [optMapList] at h
    cases h
    rfl
  | cons x xs ih =>
    rw [optMapList] at h
    cases hf : f x with
    | none => rw [hf] at h; simp at h
    | some y =>
      rw [hf] at h
      cases hr : optMapList f xs with
      | none => rw [hr] at h; simp at h
      | some ys2 =>
        rw [hr] at h
        simp at h
        subst h
        simp [ih hr]

theorem optMapList_get {α β : Type} {f : α → Option β} {xs : List α} {ys : List β}
    (h : optMapList f xs = some ys) :
    ∀ (i : Nat) (hx : i < xs.length) (hy : i < ys.length),
      f (xs.get ⟨i, hx⟩) = some (ys.get ⟨i, hy⟩) := by
  induction xs generalizing ys with
  | nil => intro i hx; simp at hx
  | cons x xs ih =>
    rw [optMapList] at h
    cases hf : f x with
    | none => rw [hf] at h; simp at h
    | some y =>
      rw [hf] at h
      cases hr : optMapList f xs with
      | none => rw [hr] at h; simp at h
      | some ys2 =>
        rw [hr] at h
        simp at h
        subst h
        intro i hx hy
        cases i with
        | zero => simpa using hf
        | succ j =>
          simp only [List.get_cons_succ]
          exact ih hr j (by simpa using hx) (by simpa using hy)

theorem optMapList_isSome {α β : Type} {f : α → Option β} {xs : List α}
    (h : ∀ x ∈ xs, (f x).isSome = true) : ∃ ys, optMapList f xs = some ys := by
  induction xs with
  | nil => exact ⟨[], rfl⟩
  | cons x xs ih =>
    obtain ⟨y, hy⟩ := Option.isSome_iff_exists.mp (h x (by simp))
    obtain ⟨ys, hys⟩ := ih (fun a ha => h a (by simp [ha]))
    exact ⟨y :: ys, by rw [optMapList, hy, hys]; rfl⟩

theorem optMapList_mem {α β : Type} {f : α → Option β} {xs : List α} {ys : List β}
    (h : optMapList f xs = some ys) (b : β) : b ∈ ys ↔ ∃ x ∈ xs, f x = some b := by
  induction xs generalizing ys with
  | nil =>
    rw [optMapList] at h
    cases h
    simp
  | cons x xs ih =>
    rw [optMapList] at h
    cases hf : f x with
    | none => rw [hf] at h; simp at h
    | some y =>
      rw [hf] at h
      cases hr : optMapList f xs with
      | none => rw [hr] at h; simp at h
      | some ys2 =>
        rw [hr] at h
        simp at h
        subst h
        simp only [List.mem_cons]
        constructor
        · intro hb
          rcases hb with hb | hb
          · exact ⟨x, Or.inl rfl, hb ▸ hf⟩
          · obtain ⟨a, ha, hfa⟩ := (ih hr).mp hb
            exact ⟨a, Or.inr ha, hfa⟩
        · intro hb
          obtain ⟨a, ha, hfa⟩ := hb
          rcases ha with ha | ha
          · subst ha
            left
            rw [hf] at hfa
            exact (Option.some.inj hfa).symm
          · right
            exact (ih hr).mpr ⟨a, ha, hfa⟩

/-! ### Lemmas about insertion sort -/

theorem insBy_perm {α : Type} (le : α → α → Bool) (a : α) (l : List α) :
    (insBy le a l).Perm (a :: l) := by
  induction l with
  | nil => exact List.Perm.refl _
  | cons b bs ih =>
    rw [insBy]
    by_cases h : le a b = true
    · rw [if_pos h]
    · rw [if_neg h]
      exact (ih.cons b).trans (List.Perm.swap a b bs)

theorem sortBy_perm {α : Type} (le : α → α → Bool) (l : List α) :
    (sortBy le l).Perm l := by
  induction l with
  | nil => exact List.Perm.refl _
  | cons a as ih =>
    rw [sortBy]
    exact (insBy_perm le a (sortBy le as)).trans (ih.cons a)

theorem insBy_pairwise {α : Type} {le : α → α → Bool}
    (htot : ∀ a b, le a b = true ∨ le b a = true)
    (htrans : ∀ a b c, le a b = true → le b c = true → le a c = true)
    {l : List α} (h : l.Pairwise (fun a b => le a b = true)) (a : α) :
    (insBy le a l).Pairwise (fun a b => le a b = true) := by
  induction l with
  | nil => simp [insBy]
  | cons b bs ih =>
    rw [List.pairwise_cons] at h
    rw [insBy]
    by_cases hab : le a b = true
    · rw [if_pos hab]
      rw [List.pairwise_cons]
      refine ⟨?_, List.Pairwise.cons h.1 h.2⟩
      intro c hc
      rcases List.mem_cons.mp hc with hc | hc
      · subst hc; exact hab
      · exact htrans a b c hab (h.1 c hc)
    · rw [if_neg hab]
      rw [List.pairwise_cons]
      refine ⟨?_, ih h.2⟩
      intro c hc
      have hc2 : c ∈ a :: bs := (insBy_perm le a bs).mem_iff.mp hc
      rcases List.mem_cons.mp hc2 with hc3 | hc3
      · subst hc3
        rcases htot c b with h2 | h2
        · exact absurd h2 hab
        · exact h2
      · exact h.1 c hc3

theorem sortBy_pairwise {α : Type} {le : α → α → Bool}
    (htot : ∀ a b, le a b = true ∨ le b a = true)
    (htrans : ∀ a b c, le a b = true → le b c = true → le a c = true)
    (l : List α) : (sortBy le l).Pairwise (fun a b => le a b = true) := by
  induction l with
  | nil => simp [sortBy]
  | cons a as ih =>
    rw [sortBy]
    exact insBy_pairwise htot htrans ih a

/-! ### Lemmas about the migration runner -/

theorem mapNormalize_normalized {ls : List JObj} {c : Nat} {ns : List JObj} {c2 : Nat}
    (h : mapNormalize ls c = some (ns, c2)) : ∀ n ∈ ns, normalizedLine n = true := by
  induction ls generalizing c ns c2 with
  | nil =>
    rw [mapNormalize] at h
    cases h
    intro n hn
    simp at hn
  | cons l rest ih =>
    rw [mapNormalize] at h
    cases hf : normalize_line l c with
    | none => rw [hf] at h; simp at h
    | some p =>
      obtain ⟨y, cy⟩ := p
      rw [hf] at h
      simp only [Option.pure_def, Option.bind_eq_bind, Option.some_bind] at h
      cases hr : mapNormalize rest cy with
      | none => rw [hr] at h; simp at h
      | some q =>
        obtain ⟨ns2, c3⟩ := q
        rw [hr] at h
        simp at h
        intro n hn
        rw [← h.1] at hn
        rcases List.mem_cons.mp hn with hn | hn
        · subst hn
          exact normalize_line_normalized hf
        · exact ih hr n hn

theorem mapNormalize_pyEq_normalized {ls ns : List JObj} {c c2 : Nat}
    (h : mapNormalize ls c = some (ns, c2)) (he : pyEqLines ns ls = true) :
    ∀ l ∈ ls, normalizedLine l = true := by
  induction ls generalizing c ns c2 with
  | nil => intro l hl; simp at hl
  | cons l rest ih =>
    rw [mapNormalize] at h
    cases hf : normalize_line l c with
    | none => rw [hf] at h; simp at h
    | some p =>
      obtain ⟨y, cy⟩ := p
      rw [hf] at h
      simp only [Option.pure_def, Option.bind_eq_bind, Option.some_bind] at h
      cases hr : mapNormalize rest cy with
      | none => rw [hr] at h; simp at h
      | some q =>
        obtain ⟨ns2, c3⟩ := q
        rw [hr] at h
        simp at h
        rw [← h.1, pyEqLines, decide_eq_true_eq] at he
        simp only [List.map_cons, List.cons.injEq] at he
        intro l' hl'
        rcases List.mem_cons.mp hl' with hl' | hl'
        · subst hl'
          refine normalizedLine_of_pyEq ?_ (normalize_line_normalized hf)
          rw [pyEq]
          exact decide_eq_true he.1
        · refine ih hr ?_ l' hl'
          rw [pyEqLines, decide_eq_true_eq]
          exact he.2

theorem mapNormalize_fixpoint {ls : List JObj} (h : ∀ l ∈ ls, normalizedLine l = true)
    (c : Nat) : mapNormalize ls c = some (ls, c) := by
  induction ls generalizing c with
  | nil => rfl
  | cons l rest ih =>
    rw [mapNormalize, normalize_line_of_normalized (h l (by simp)) c]
    simp only [Option.pure_def, Option.bind_eq_bind, Option.some_bind]
    rw [ih (fun a ha => h a (by simp [ha])) c]
    rfl

theorem pyEqLines_refl (ls : List JObj) : pyEqLines ls ls = true := by
  simp [pyEqLines]

theorem normalizedLine_jset_user {l : JObj} (h : normalizedLine l = true) (v : JVal) :
    normalizedLine (jset l "user_id" v) = true := by
  rw [normalizedLine] at h ⊢
  simp only [Bool.and_eq_true, decide_eq_true_eq] at h ⊢
  rw [getD_jset_ne l "user_id" v "id" (by decide),
      getD_jset_ne l "user_id" v "type" (by decide),
      getD_jset_ne l "user_id" v "category" (by decide),
      hasKey_jset_ne l "user_id" v "base_amount" (by decide),
      getD_jset_ne l "user_id" v "base_amount" (by decide),
      getD_jset_ne l "user_id" v "subitems" (by decide),
      hasKey_jset_ne l "user_id" v "is_variable" (by decide),
      getD_jset_ne l "user_id" v "is_variable" (by decide)]
  exact h

theorem attachUser_preserves_normalized {l : JObj} (h : normalizedLine l = true) (v : JVal) :
    normalizedLine (attachUser v l) = true := by
  rw [attachUser]
  split
  · exact h
  · exact normalizedLine_jset_user h v

theorem attachUser_idem (v : JVal) (l : JObj) :
    attachUser v (attachUser v l) = attachUser v l := by
  by_cases h : truthy (getD l "user_id") = true
  · have hi : attachUser v l = l := by rw [attachUser, if_pos h]
    rw [hi, hi]
  · have hi : attachUser v l = jset l "user_id" v := by rw [attachUser, if_neg h]
    rw [hi, attachUser]
    by_cases hv : truthy v = true
    · rw [if_pos (by rw [getD_jset_self]; exact hv)]
    · rw [if_neg (by rw [getD_jset_self]; exact hv)]
      exact jset_jget?_self _ _ _ (jget?_jset_self l "user_id" v)

theorem ensure_db_shapes_id {d : Dataset} (h : d.version ≠ none) :
    ensure_db_shapes d = d := by
  obtain ⟨v, hv⟩ := Option.ne_none_iff_exists'.mp h
  cases d with
  | mk ls us ver =>
    simp only at hv
    rw [ensure_db_shapes]
    simp only [hv]
    rfl

theorem migrate_db_facts {d : Dataset} {c : Nat} {d1 : Dataset} {c1 : Nat}
    (h : migrate_db d c = some (d1, c1)) :
    (∀ l ∈ d1.lines, normalizedLine l = true) ∧ d1.users = d.users ∧ d1.version ≠ none := by
  rw [migrate_db] at h
  cases hm : mapNormalize (ensure_db_shapes d).lines c with
  | none => rw [hm] at h; simp at h
  | some p =>
    obtain ⟨ns, c2⟩ := p
    simp only [hm] at h
    by_cases hcond : pyEqLines ns (ensure_db_shapes d).lines = false ∨
        (ensure_db_shapes d).version = none
    · rw [if_pos hcond] at h
      simp only [Option.some.injEq, Prod.mk.injEq] at h
      rw [← h.1]
      refine ⟨?_, ?_, ?_⟩
      · exact mapNormalize_normalized hm
      · rfl
      · simp
    · rw [if_neg hcond] at h
      push_neg at hcond
      simp only [Option.some.injEq, Prod.mk.injEq] at h
      rw [← h.1]
      refine ⟨?_, rfl, hcond.2⟩
      have he : pyEqLines ns (ensure_db_shapes d).lines = true := by
        cases hee : pyEqLines ns (ensure_db_shapes d).lines
        · exact absurd hee hcond.1
        · rfl
      exact mapNormalize_pyEq_normalized hm he

theorem migrate_db_fixpoint {d : Dataset} (hls : ∀ l ∈ d.lines, normalizedLine l = true)
    (hv : d.version ≠ none) (c : Nat) : migrate_db d c = some (d, c) := by
  rw [migrate_db, ensure_db_shapes_id hv]
  simp only [mapNormalize_fixpoint hls c]
  rw [if_neg ?hc]
  case hc =>
    push_neg
    exact ⟨by rw [pyEqLines_refl]; simp, hv⟩

theorem add_default_facts (d : Dataset) (c : Nat) (pw : String) (ca : ℚ)
    (hls : ∀ l ∈ d.lines, normalizedLine l = true) :
    (∀ l ∈ (migrate_add_default_user d c pw ca).1.lines, normalizedLine l = true) ∧
    (migrate_add_default_user d c pw ca).1.users ≠ [] ∧
    (migrate_add_default_user d c pw ca).1.version = d.version := by
  rw [migrate_add_default_user]
  split
  · refine ⟨?_, by simp, rfl⟩
    intro l hl
    simp only [List.mem_map] at hl
    obtain ⟨a, ha, rfl⟩ := hl
    exact attachUser_preserves_normalized (hls a ha) _
  · next hne => exact ⟨hls, hne, rfl⟩

theorem orphans_facts {d d3 : Dataset} (h : migrate_attach_orphans d = some d3)
    (hu : d.users ≠ []) (hls : ∀ l ∈ d.lines, normalizedLine l = true) :
    (∀ l ∈ d3.lines, normalizedLine l = true) ∧ d3.users = d.users ∧
      d3.version = d.version ∧ migrate_attach_orphans d3 = some d3 := by
  obtain ⟨ls, us, ver⟩ := d
  cases us with
  | nil => exact absurd rfl hu
  | cons u0 rest =>
    rw [migrate_attach_orphans] at h
    simp only at h
    cases hfp : findPref (u0 :: rest) with
    | none => rw [hfp] at h; simp at h
    | some found =>
      simp only [hfp] at h
      cases hid : jget? (found.getD u0) "id" with
      | none => rw [hid] at h; simp at h
      | some prefId =>
        rw [hid] at h
        simp only [Option.some.injEq] at h
        rw [← h]
        refine ⟨?_, rfl, rfl, ?_⟩
        · intro l hl
          simp only [List.mem_map] at hl
          obtain ⟨a, ha, rfl⟩ := hl
          exact attachUser_preserves_normalized (hls a ha) _
        · rw [migrate_attach_orphans]
          simp only [hfp, hid]
          have hmm : (ls.map (attachUser prefId)).map (attachUser prefId) =
              ls.map (attachUser prefId) := by
            rw [List.map_map]
            exact List.map_congr_left (fun a _ => attachUser_idem prefId a)
          simp only [hmm]

theorem add_default_fixpoint {d : Dataset} (hu : d.users ≠ []) (c : Nat) (pw : String)
    (ca : ℚ) : migrate_add_default_user d c pw ca = (d, c) := by
  rw [migrate_add_default_user, if_neg hu]

theorem startup_facts {d : Dataset} {c : Nat} {pw : String} {ca : ℚ} {d2 : Dataset}
    {c2 : Nat} (h : startup d c pw ca = some (d2, c2)) :
    (∀ l ∈ d2.lines, normalizedLine l = true) ∧ d2.users ≠ [] ∧ d2.version ≠ none ∧
      migrate_attach_orphans d2 = some d2 := by
  rw [startup] at h
  cases hm : migrate_db d c with
  | none => rw [hm] at h; simp at h
  | some p =>
    obtain ⟨d1, c1⟩ := p
    rw [hm] at h
    obtain ⟨hls1, _, hv1⟩ := migrate_db_facts hm
    obtain ⟨hls2, hu2, hv2⟩ := add_default_facts d1 c1 pw ca hls1
    simp only at h
    cases ho : migrate_attach_orphans (migrate_add_default_user d1 c1 pw ca).1 with
    | none => rw [ho] at h; simp at h
    | some d3 =>
      rw [ho] at h
      simp only [Option.some.injEq, Prod.mk.injEq] at h
      obtain ⟨hfacts1, hfacts2, hfacts3, hfacts4⟩ := orphans_facts ho hu2 hls2
      rw [← h.1]
      refine ⟨hfacts1, ?_, ?_, hfacts4⟩
      · rw [hfacts2]; exact hu2
      · rw [hfacts3, hv2]; exact hv1

theorem startup_second_run {d : Dataset} {c : Nat} {pw : String} {ca : ℚ} {d2 : Dataset}
    {c2 : Nat} (h : startup d c pw ca = some (d2, c2)) (c' : Nat) (pw' : String)
    (ca' : ℚ) : startup d2 c' pw' ca' = some (d2, c') := by
  obtain ⟨hls, hu, hv, ho⟩ := startup_facts h
  rw [startup, migrate_db_fixpoint hls hv c']
  simp only [add_default_fixpoint hu c' pw' ca', ho]

/-! ### Lemmas about summary -/

/-- The total of the category map values. -/
def catSum (m : List (JVal × ℚ)) : ℚ := (m.map (fun p => p.2)).sum

theorem catSum_addCat (m : List (JVal × ℚ)) (k : JVal) (q : ℚ) :
    catSum (addCat m k q) = catSum m + q := by
  induction m with
  | nil => simp [addCat, catSum]
  | cons p rest ih =>
    obtain ⟨k', v⟩ := p
    rw [addCat]
    by_cases h : k' = k
    · rw [if_pos h]
      simp only [catSum, List.map_cons, List.sum_cons]
      ring
    · rw [if_neg h]
      simp only [catSum, List.map_cons, List.sum_cons] at ih ⊢
      rw [ih]
      ring

theorem normalizedLine_type {l : JObj} (h : normalizedLine l = true) :
    getD l "type" = JVal.str "income" ∨ getD l "type" = JVal.str "expense" := by
  rw [normalizedLine] at h
  simp only [Bool.and_eq_true, decide_eq_true_eq] at h
  exact h.1.1.1.1.1.1.2

theorem catStep_eq {m : List (JVal × ℚ)} {l : JObj} {m2 : List (JVal × ℚ)}
    (h : catStep m l = some m2) :
    ∃ t, total_of_line l = some t ∧
      m2 = addCat m (catOrOhne l) (if getD l "type" = JVal.str "income" then t else -t) := by
  rw [catStep] at h
  cases ht : total_of_line l with
  | none => rw [ht] at h; simp at h
  | some t =>
    rw [ht] at h
    simp only [Option.pure_def, Option.bind_eq_bind, Option.some_bind] at h
    by_cases hh : hashable (catOrOhne l) = true
    · rw [if_pos hh] at h
      exact ⟨t, rfl, (Option.some.inj h).symm⟩
    · rw [if_neg hh] at h
      simp at h

theorem sumTotals_cons {l : JObj} {rest : List JObj} {s : ℚ}
    (h : sumTotals (l :: rest) = some s) :
    ∃ t r, total_of_line l = some t ∧ sumTotals rest = some r ∧ s = t + r := by
  rw [sumTotals] at h
  cases ht : total_of_line l with
  | none => rw [ht] at h; simp at h
  | some t =>
    rw [ht] at h
    simp only [Option.pure_def, Option.bind_eq_bind, Option.some_bind] at h
    cases hr : sumTotals rest with
    | none => rw [hr] at h; simp at h
    | some r =>
      rw [hr] at h
      simp only [Option.some_bind, Option.some.injEq] at h
      exact ⟨t, r, rfl, rfl, h.symm⟩

theorem catFoldFrom_sum {ls : List JObj}
    (hty : ∀ l ∈ ls, getD l "type" = JVal.str "income" ∨ getD l "type" = JVal.str "expense") :
    ∀ (m mf : List (JVal × ℚ)) (i e : ℚ),
      catFoldFrom m ls = some mf →
      sumTotals (ls.filter (fun l => getD l "type" = JVal.str "income")) = some i →
      sumTotals (ls.filter (fun l => getD l "type" = JVal.str "expense")) = some e →
      catSum mf = catSum m + (i - e) := by
  induction ls with
  | nil =>
    intro m mf i e hc hi he
    rw [catFoldFrom] at hc
    cases hc
    rw [List.filter_nil] at hi he
    rw [sumTotals] at hi he
    cases hi
    cases he
    ring
  | cons l rest ih =>
    intro m mf i e hc hi he
    rw [catFoldFrom] at hc
    cases hcs : catStep m l with
    | none => rw [hcs] at hc; simp at hc
    | some m1 =>
      rw [hcs] at hc
      obtain ⟨t, ht, hm1⟩ := catStep_eq hcs
      have hne : JVal.str "income" ≠ JVal.str "expense" := by decide
      rcases hty l (by simp) with hty1 | hty1
      · rw [List.filter_cons_of_pos (by simp [hty1])] at hi
        rw [List.filter_cons_of_neg (by simp [hty1, hne])] at he
        obtain ⟨t2, r, ht2, hr, hs⟩ := sumTotals_cons hi
        rw [ht] at ht2
        cases ht2
        have hrest := ih (fun a ha => hty a (by simp [ha])) m1 mf r e hc hr he
        rw [hrest, hm1, catSum_addCat, if_pos hty1, hs]
        ring
      · have hne2 : getD l "type" ≠ JVal.str "income" := by
          rw [hty1]
          intro hx
          exact hne hx.symm
        rw [List.filter_cons_of_neg (by simp [hne2])] at hi
        rw [List.filter_cons_of_pos (by simp [hty1])] at he
        obtain ⟨t2, r, ht2, hr, hs⟩ := sumTotals_cons he
        rw [ht] at ht2
        cases ht2
        have hrest := ih (fun a ha => hty a (by simp [ha])) m1 mf i r hc hi hr
        rw [hrest, hm1, catSum_addCat, if_neg hne2, hs]
        ring

theorem sortCats_sum (m : List (JVal × ℚ)) :
    ((sortCats m).map (fun p => p.2)).sum = catSum m := by
  rw [catSum]
  exact List.Perm.sum_eq (List.Perm.map _ (sortBy_perm _ m))

/-- The summary output is exactly built from the intermediate sums. -/
theorem summary_eq {lines : List JObj} {uid : String} {c : Nat} {s : SummaryOut}
    (h : summary lines uid c = some s) :
    ∃ ns c2 inc ex cats,
      mapNormalize (lines.filter (fun l => pyEq (getD l "user_id") (.str uid))) c =
        some (ns, c2) ∧
      sumTotals (ns.filter (fun l => getD l "type" = JVal.str "income")) = some inc ∧
      sumTotals (ns.filter (fun l => getD l "type" = JVal.str "expense")) = some ex ∧
      catFold ns = some cats ∧
      s = ⟨inc, ex, inc - ex, sortCats cats⟩ := by
  rw [summary] at h
  cases hm : mapNormalize (lines.filter (fun l => pyEq (getD l "user_id") (.str uid))) c with
  | none => rw [hm] at h; simp at h
  | some p =>
    obtain ⟨ns, c2⟩ := p
    simp only [hm] at h
    cases hi : sumTotals (ns.filter (fun l => getD l "type" = JVal.str "income")) with
    | none => rw [hi] at h; simp at h
    | some inc =>
      rw [hi] at h
      simp only [Option.pure_def, Option.bind_eq_bind, Option.some_bind] at h
      cases he : sumTotals (ns.filter (fun l => getD l "type" = JVal.str "expense")) with
      | none => rw [he] at h; simp at h
      | some ex =>
        rw [he] at h
        simp only [Option.some_bind] at h
        cases hc : catFold ns with
        | none => rw [hc] at h; simp at h
        | some cats =>
          rw [hc] at h
          simp only [Option.some_bind] at h
          by_cases hk : keysSortable cats = true
          · rw [if_pos hk] at h
            exact ⟨ns, c2, inc, ex, cats, rfl, hi, he, hc, (Option.some.inj h).symm⟩
          · rw [if_neg hk] at h
            simp at h

/-! ### Lemmas about the categories listing -/

theorem asStr?_eq_some {v : JVal} {s : String} : asStr? v = some s ↔ v = .str s := by
  cases v <;> simp [asStr?]

theorem sortStrings_sorted (l : List String) :
    (sortStrings l).Sorted (fun a b => a ≤ b) := by
  have htot : ∀ a b : String, strLeB a b = true ∨ strLeB b a = true := by
    intro a b
    rcases le_total a b with h | h
    · exact Or.inl (strLeB_iff.mpr h)
    · exact Or.inr (strLeB_iff.mpr h)
  have htrans : ∀ a b c : String,
      strLeB a b = true → strLeB b c = true → strLeB a c = true := by
    intro a b c hab hbc
    exact strLeB_iff.mpr (le_trans (strLeB_iff.mp hab) (strLeB_iff.mp hbc))
  exact (sortBy_pairwise htot htrans l).imp (fun h => strLeB_iff.mp h)

theorem mem_sortStrings {l : List String} {s : String} : s ∈ sortStrings l ↔ s ∈ l :=
  (sortBy_perm _ l).mem_iff

theorem nodup_sortStrings {l : List String} (h : l.Nodup) : (sortStrings l).Nodup :=
  (sortBy_perm _ l).nodup_iff.mpr h

theorem categories_eq {lines : List JObj} {uid : String} {r : List String}
    (h : categories lines uid = some r) :
    ∃ cs, optMapList asStr?
        ((lines.filter (fun l => pyEq (getD l "user_id") (.str uid))).map catOrOhne) =
          some cs ∧
      r = sortStrings cs.dedup := by
  rw [categories] at h
  cases hcs : optMapList asStr?
      ((lines.filter (fun l => pyEq (getD l "user_id") (.str uid))).map catOrOhne) with
  | none => rw [hcs] at h; simp at h
  | some cs =>
    rw [hcs] at h
    exact ⟨cs, rfl, (Option.some.inj h).symm⟩

/-! ### Lemmas about line totals -/

/-- The plain mathematical amount of a normalized subitem. -/
def subAmountVal (x : JVal) : ℚ :=
  match x with
  | .obj s =>
    match getD s "amount" with
    | .num q => q
    | _ => 0
  | _ => 0

theorem normalizedSub_amount {x : JVal} (h : normalizedSub x = true) :
    ∃ s q, x = .obj s ∧ getD s "amount" = JVal.num q := by
  cases x with
  | obj s =>
    rw [normalizedSub] at h
    simp only [Bool.and_eq_true] at h
    obtain ⟨q, hq⟩ : ∃ q, getD s "amount" = JVal.num q := by
      cases hg : getD s "amount" <;> rw [hg] at h <;> simp [asNum?] at h
      exact ⟨_, rfl⟩
    exact ⟨s, q, rfl, hq⟩
  | null => simp [normalizedSub] at h
  | num q => simp [normalizedSub] at h
  | str s => simp [normalizedSub] at h
  | arr xs => simp [normalizedSub] at h

theorem pyFloat_num_orElse (q : ℚ) :
    pyFloat (orElseVal (JVal.num q) (.num 0)) = some q := by
  rw [orElseVal]
  by_cases h : q = 0
  · subst h
    rw [if_neg (by simp [truthy])]
    rfl
  · rw [if_pos (by simp [truthy, h])]
    rfl

theorem sumAmounts_of_normalized {xs : List JVal} (h : xs.all normalizedSub = true) :
    sumAmounts xs = some ((xs.map subAmountVal).sum) := by
  induction xs with
  | nil => simp [sumAmounts]
  | cons x rest ih =>
    simp only [List.all_cons, Bool.and_eq_true] at h
    obtain ⟨s, q, rfl, hq⟩ := normalizedSub_amount h.1
    have hx : subAmount? (JVal.obj s) = some (subAmountVal (JVal.obj s)) := by
      rw [subAmount?, subAmountVal, hq, pyFloat_num_orElse]
    rw [sumAmounts, hx, ih h.2]
    simp

theorem normalizedLine_subitems {l : JObj} (h : normalizedLine l = true) :
    ∃ xs, getD l "subitems" = JVal.arr xs ∧ xs.all normalizedSub = true := by
  rw [normalizedLine] at h
  simp only [Bool.and_eq_true, decide_eq_true_eq] at h
  have hsub := h.1.1.2
  cases hg : getD l "subitems" <;> rw [hg] at hsub
  case arr xs => exact ⟨xs, rfl, hsub⟩
  all_goals exact absurd hsub (by simp)

theorem total_of_line_nonempty {l : JObj} {xs : List JVal}
    (hxs : getD l "subitems" = JVal.arr xs) (hne : xs ≠ [])
    (hall : xs.all normalizedSub = true) :
    total_of_line l = some ((xs.map subAmountVal).sum) := by
  rw [total_of_line, hxs, orElseVal, if_pos (by simp [truthy, hne])]
  simp only
  rw [if_pos hne]
  exact sumAmounts_of_normalized hall

theorem total_of_line_empty {l : JObj} {q : ℚ}
    (hxs : getD l "subitems" = JVal.arr []) (hbase : getD l "base_amount" = JVal.num q) :
    total_of_line l = some q := by
  rw [total_of_line, hxs, orElseVal, if_neg (by simp [truthy])]
  simp only
  rw [if_neg (by simp), hbase]
  exact pyFloat_num_orElse q

/-! ### The data-model invariants of section 3 of the spec -/

/-- The Subitem invariants: a dict with an id and a numeric amount. -/
def subInvariant (x : JVal) : Bool :=
  match x with
  | .obj s => truthy (getD s "id") && (asNum? (getD s "amount")).isSome
  | _ => false

/-- The Line invariants listed in section 3 of the spec, for a single line:
id present, type exactly income or expense, category never empty,
base_amount a (finite) number, is_variable three-valued under Python ==
(the numbers 1 / 0 count as True / False), and well-formed subitems. -/
def lineInvariant (l : JObj) : Bool :=
  truthy (getD l "id") &&
  decide (getD l "type" = JVal.str "income" ∨ getD l "type" = JVal.str "expense") &&
  truthy (getD l "category") &&
  (asNum? (getD l "base_amount")).isSome &&
  decide (getD l "is_variable" = JVal.num 1 ∨ getD l "is_variable" = JVal.num 0 ∨
          getD l "is_variable" = JVal.null) &&
  (match getD l "subitems" with
   | .arr xs => xs.all subInvariant
   | _ => false)

theorem subInvariant_of_normalizedSub {x : JVal} (h : normalizedSub x = true) :
    subInvariant x = true := by
  cases x with
  | obj s =>
    rw [normalizedSub] at h
    rw [subInvariant]
    simp only [Bool.and_eq_true] at h ⊢
    exact ⟨h.1.1, h.2⟩
  | null => simp [normalizedSub] at h
  | num q => simp [normalizedSub] at h
  | str s => simp [normalizedSub] at h
  | arr xs => simp [normalizedSub] at h

theorem getD_normStepBase_num {l : JObj}
    (h : getD l "base_amount" = JVal.null ∨ (asNum? (getD l "base_amount")).isSome = true) :
    (asNum? (getD (normStepBase l) "base_amount")).isSome = true := by
  rw [normStepBase]
  split
  · next hc =>
    rcases h with h | h
    · exact absurd h hc.2
    · exact h
  · split <;> rw [getD_jset_self] <;> simp [asNum?]

theorem getD_normStepBase_of_ne_null {l : JObj} (h : getD l "base_amount" ≠ JVal.null) :
    getD (normStepBase l) "base_amount" = getD l "base_amount" := by
  rw [normStepBase, if_pos ⟨hasKey_of_getD_ne_null h, h⟩]

theorem getD_pre_base (raw : JObj) (c : Nat) :
    getD (normStepCat (normStepType (normStepId raw c).1)) "base_amount" =
      getD raw "base_amount" := by
  rw [getD_normStepCat_ne _ _ (by decide), getD_normStepType_ne _ _ (by decide),
    getD_normStepId_ne _ _ _ (by decide)]

theorem getD_pre_subitems (raw : JObj) (c : Nat) :
    getD (normStepBase (normStepCat (normStepType (normStepId raw c).1))) "subitems" =
      getD raw "subitems" := by
  rw [getD_normStepBase_ne _ _ (by decide), getD_normStepCat_ne _ _ (by decide),
    getD_normStepType_ne _ _ (by decide), getD_normStepId_ne _ _ _ (by decide)]

theorem normalize_line_base {raw : JObj} {c : Nat} {y : JObj} {c2 : Nat}
    (h : normalize_line raw c = some (y, c2)) :
    getD y "base_amount" =
      getD (normStepBase (normStepCat (normStepType (normStepId raw c).1))) "base_amount" := by
  rw [normalize_line] at h
  cases hit : (if truthy (getD (normStepBase (normStepCat (normStepType (normStepId raw c).1)))
      "subitems") = true
      then pyIterList (getD (normStepBase (normStepCat (normStepType (normStepId raw c).1)))
        "subitems")
      else some []) with
  | none => rw [hit] at h; simp at h
  | some sis =>
    rw [hit] at h
    simp only [Option.some.injEq, Prod.mk.injEq] at h
    rw [← h.1]
    rw [getD_normStepVar_ne _ _ (by decide), getD_jset_ne _ _ _ _ (by decide)]

theorem normalize_line_isSome {raw : JObj} (c : Nat)
    (hsubs : truthy (getD raw "subitems") = false ∨
      (pyIterList (getD raw "subitems")).isSome = true) :
    ∃ y c2, normalize_line raw c = some (y, c2) := by
  rw [normalize_line]
  rw [show getD (normStepBase (normStepCat (normStepType (normStepId raw c).1))) "subitems" =
      getD raw "subitems" from getD_pre_subitems raw c]
  rcases hsubs with hs | hs
  · rw [if_neg (by rw [hs]; simp)]
    exact ⟨_, _, rfl⟩
  · by_cases ht : truthy (getD raw "subitems") = true
    · rw [if_pos ht]
      obtain ⟨sis, hsis⟩ := Option.isSome_iff_exists.mp hs
      rw [hsis]
      exact ⟨_, _, rfl⟩
    · rw [if_neg ht]
      exact ⟨_, _, rfl⟩

theorem normalize_line_invariant {raw : JObj} {c : Nat} {y : JObj} {c2 : Nat}
    (h : normalize_line raw c = some (y, c2))
    (hbase : getD raw "base_amount" = JVal.null ∨
      (asNum? (getD raw "base_amount")).isSome = true) :
    lineInvariant y = true := by
  have hn := normalize_line_normalized h
  rw [normalizedLine] at hn
  simp only [Bool.and_eq_true, decide_eq_true_eq] at hn
  obtain ⟨⟨⟨⟨⟨⟨⟨hid, hty⟩, hcat⟩, hbk⟩, hbn⟩, hsub⟩, hvk⟩, hvv⟩ := hn
  rw [lineInvariant]
  simp only [Bool.and_eq_true, decide_eq_true_eq]
  refine ⟨⟨⟨⟨⟨hid, hty⟩, hcat⟩, ?_⟩, hvv⟩, ?_⟩
  · rw [normalize_line_base h]
    apply getD_normStepBase_num
    rw [getD_pre_base raw c]
    exact hbase
  · cases hg : getD y "subitems" <;> rw [hg] at hsub
    case arr xs =>
      rw [List.all_eq_true] at hsub ⊢
      exact fun x hx => subInvariant_of_normalizedSub (hsub x hx)
    all_goals exact absurd hsub (by simp)

/-! ### Lemmas about the category editor and update endpoints -/

theorem deleteCatLine_skip {name : String} {target : Option String} {uid : String} {l : JObj}
    (h : pyEq (getD l "user_id") (.str uid) = false) :
    deleteCatLine name target uid l = some l := by
  rw [deleteCatLine.eq_def, if_pos h]

theorem renameLine_skip {old nw uid : String} {l : JObj}
    (h : pyEq (getD l "user_id") (.str uid) = false) :
    renameLine old nw uid l = some l := by
  rw [renameLine, if_pos h]

theorem delete_category_ok {lines : List JObj} {name : String} {target : Option String}
    {uid : String} {ls : List JObj} {r : Option String}
    (h : delete_category lines name target uid = .ok (ls, r)) :
    optMapList (deleteCatLine name target uid) lines = some ls := by
  rw [delete_category.eq_def] at h
  cases hm : optMapList (deleteCatLine name target uid) lines with
  | none => rw [hm] at h; exact PyResult.noConfusion h
  | some ls2 =>
    rw [hm] at h
    have h2 := PyResult.ok.inj h
    rw [(Prod.mk.injEq _ _ _ _).mp h2 |>.1]

theorem rename_category_ok {payload : JObj} {lines : List JObj} {uid : String}
    {ls : List JObj} (h : rename_category payload lines uid = .ok ls) :
    ∃ old nw, pyStripOrEmpty? (getD payload "old") = some old ∧
      pyStripOrEmpty? (getD payload "new") = some nw ∧ ¬(old = "" ∨ nw = "") ∧
      optMapList (renameLine old nw uid) lines = some ls := by
  rw [rename_category] at h
  cases hso : pyStripOrEmpty? (getD payload "old") with
  | none => rw [hso] at h; exact PyResult.noConfusion h
  | some old =>
    cases hsn : pyStripOrEmpty? (getD payload "new") with
    | none => rw [hso, hsn] at h; exact PyResult.noConfusion h
    | some nw =>
      simp only [hso, hsn] at h
      by_cases hemp : old = "" ∨ nw = ""
      · rw [if_pos hemp] at h
        exact PyResult.noConfusion h
      · rw [if_neg hemp] at h
        cases hm : optMapList (renameLine old nw uid) lines with
        | none => rw [hm] at h; exact PyResult.noConfusion h
        | some ls2 =>
          rw [hm] at h
          exact ⟨old, nw, rfl, rfl, hemp, by rw [hm, PyResult.ok.inj h]⟩

theorem updLabel_base (payload cur : JObj) :
    getD (updLabel payload cur) "base_amount" = getD cur "base_amount" := by
  rw [updLabel]
  split
  · rw [getD_jset_ne _ _ _ _ (by decide)]
  · rfl

theorem updType_base {payload cur cur2 : JObj} (h : updType payload cur = some cur2) :
    getD cur2 "base_amount" = getD cur "base_amount" := by
  rw [updType] at h
  by_cases hk : hasKey payload "type" = true
  · rw [if_pos hk] at h
    cases hs : pyStripOrEmpty? (getD payload "type") with
    | none => rw [hs] at h; simp at h
    | some t =>
      rw [hs] at h
      simp only [Option.some.injEq] at h
      rw [← h]
      split
      · rw [getD_jset_ne _ _ _ _ (by decide)]
      · rfl
  · rw [if_neg hk] at h
    simp only [Option.some.injEq] at h
    rw [← h]

theorem updCategory_base (payload cur : JObj) :
    getD (updCategory payload cur) "base_amount" = getD cur "base_amount" := by
  rw [updCategory]
  split
  · rw [getD_jset_ne _ _ _ _ (by decide)]
  · rfl

theorem updBase_unparsable {payload cur : JObj} {v : JVal}
    (hv : jget? payload "base_amount" = some v) (htv : truthy v = true)
    (hpf : pyFloat v = none) : updBase payload cur = cur := by
  rw [updBase, if_pos (by rw [hasKey, hv]; rfl)]
  have hg : getD payload "base_amount" = v := by rw [getD, hv]; rfl
  rw [hg, orElseVal, if_pos htv, hpf]

theorem updSubs_base {payload cur : JObj} {c : Nat} {p : JObj × Nat}
    (h : updSubs payload cur c = some p) :
    getD p.1 "base_amount" = getD cur "base_amount" := by
  rw [updSubs] at h
  cases hj : jget? payload "subitems" with
  | none =>
    rw [hj] at h
    simp only [Option.some.injEq] at h
    rw [← h]
  | some v =>
    cases v with
    | arr sis =>
      simp only [hj] at h
      cases hb : buildSubs sis c with
      | none => rw [hb] at h; simp at h
      | some q =>
        rw [hb] at h
        simp only [Option.some.injEq] at h
        rw [← h]
        rw [getD_jset_ne _ _ _ _ (by decide)]
    | null => rw [hj] at h; simp only [Option.some.injEq] at h; rw [← h]
    | num q => rw [hj] at h; simp only [Option.some.injEq] at h; rw [← h]
    | str s => rw [hj] at h; simp only [Option.some.injEq] at h; rw [← h]
    | obj fs => rw [hj] at h; simp only [Option.some.injEq] at h; rw [← h]

theorem delete_category_none_renamed {lines : List JObj} {name uid : String}
    {ls : List JObj} {r : Option String}
    (h : delete_category lines name none uid = .ok (ls, r)) : r = none := by
  rw [delete_category.eq_def] at h
  cases hm : optMapList (deleteCatLine name none uid) lines with
  | none => rw [hm] at h; exact PyResult.noConfusion h
  | some ls2 =>
    rw [hm] at h
    have h2 := PyResult.ok.inj h
    exact ((Prod.mk.injEq _ _ _ _).mp h2).2.symm

/-! ### The verified claims -/

/-- C1 (amended): normalize_line is total and returns a line satisfying the
data-model invariants, with base_amount a finite number and missing numeric
input coerced to 0.0, PROVIDED the raw subitems value is falsy or iterable
(a list, string or dict) and the raw base_amount is absent, null or a
number.  Unrestricted, the claim is false: a truthy non-iterable subitems
value makes normalize raise TypeError, and a present unparsable base_amount
string is passed through rather than coerced to 0.0 (see the
counterexample). -/
theorem normalize_total_and_invariant {raw : JObj} (c : Nat)
    (hsubs : truthy (getD raw "subitems") = false ∨
      (pyIterList (getD raw "subitems")).isSome = true)
    (hbase : getD raw "base_amount" = JVal.null ∨
      (asNum? (getD raw "base_amount")).isSome = true) :
    ∃ y c2, normalize_line raw c = some (y, c2) ∧ lineInvariant y = true := by
  obtain ⟨y, c2, hy⟩ := normalize_line_isSome c hsubs
  exact ⟨y, c2, hy, normalize_line_invariant hy hbase⟩

/-- Witness for C1: a raw line with only a legacy numeric amount satisfies
both provisos; normalize succeeds and establishes the invariants. -/
theorem normalize_total_and_invariant_witness :
    ∃ y c2, normalize_line [("amount", JVal.num 5)] 0 = some (y, c2) ∧
      lineInvariant y = true :=
  @normalize_total_and_invariant [("amount", JVal.num 5)] 0 (Or.inl rfl) (Or.inl rfl)

/-- Counterexample to C1 as stated: normalize_line raises TypeError on the
mapping with subitems = 5 (so it is not total), and on base_amount = "abc"
it returns a line whose base_amount is still the string "abc", violating
the finite-float invariant instead of coercing to 0.0. -/
theorem normalize_total_and_invariant_counterexample :
    normalize_line [("subitems", JVal.num 5)] 0 = none ∧
      (normalize_line [("base_amount", JVal.str "abc")] 0).map
        (fun p => lineInvariant p.1) = some false :=
  ⟨rfl, rfl⟩

/-- C3: normalize_line is idempotent: its output is a fixpoint, at any
fresh-id counter, whenever it succeeds. -/
theorem normalize_line_idempotent {raw : JObj} {c : Nat} {y : JObj} {c2 : Nat}
    (h : normalize_line raw c = some (y, c2)) (c' : Nat) :
    normalize_line y c' = some (y, c') :=
  normalize_line_of_normalized (normalize_line_normalized h) c'

/-- Witness for C3: normalizing the empty mapping and normalizing the
result again changes nothing. -/
theorem normalize_line_idempotent_witness :
    normalize_line [("id", JVal.str "uuid-0"), ("type", JVal.str "expense"),
      ("category", JVal.str "sonstige ausgaben"), ("base_amount", JVal.num 0),
      ("subitems", JVal.arr []), ("is_variable", JVal.null)] 5 =
    some ([("id", JVal.str "uuid-0"), ("type", JVal.str "expense"),
      ("category", JVal.str "sonstige ausgaben"), ("base_amount", JVal.num 0),
      ("subitems", JVal.arr []), ("is_variable", JVal.null)], 5) :=
  @normalize_line_idempotent [] 0 [("id", JVal.str "uuid-0"), ("type", JVal.str "expense"),
    ("category", JVal.str "sonstige ausgaben"), ("base_amount", JVal.num 0),
    ("subitems", JVal.arr []), ("is_variable", JVal.null)] 1 rfl 5

/-- C2 (amended): after a successful normalize, the total of the result is
the sum of its subitem amounts when the subitem list is non-empty; when it
is empty the total equals base_amount PROVIDED the raw base_amount was
absent, null or numeric (an unparsable base_amount string is passed through
by the normalizer and then makes total_of_line raise, see the
counterexample); and add_subitem never overwrites the stored base_amount. -/
theorem total_of_line_after_normalize :
    (∀ (l : JObj) (c : Nat) (y : JObj) (c2 : Nat), normalize_line l c = some (y, c2) →
      (∀ xs, getD y "subitems" = JVal.arr xs → xs ≠ [] →
        total_of_line y = some ((xs.map subAmountVal).sum)) ∧
      ((getD l "base_amount" = JVal.null ∨ (asNum? (getD l "base_amount")).isSome = true) →
        getD y "subitems" = JVal.arr [] →
        ∃ q, getD y "base_amount" = JVal.num q ∧ total_of_line y = some q)) ∧
    (∀ (lines : List JObj) (lid : String) (si : JObj) (uid : String) (c : Nat)
        (ls : List JObj) (ln : JObj) (c2 : Nat) (i : Nat) (hlen : i < lines.length),
      add_subitem lines lid si uid c = .ok (ls, ln, c2) →
      firstMatch lines lid uid = some i →
      getD (lines.get ⟨i, hlen⟩) "base_amount" ≠ JVal.null →
      getD ln "base_amount" = getD (lines.get ⟨i, hlen⟩) "base_amount") := by
  constructor
  · intro l c y c2 h
    have hn := normalize_line_normalized h
    constructor
    · intro xs hxs hne
      obtain ⟨xs2, hxs2, hall⟩ := normalizedLine_subitems hn
      rw [hxs] at hxs2
      have : xs2 = xs := (JVal.arr.inj hxs2.symm)
      subst this
      exact total_of_line_nonempty hxs hne hall
    · intro hbase hempty
      have hnum : (asNum? (getD y "base_amount")).isSome = true := by
        rw [normalize_line_base h]
        apply getD_normStepBase_num
        rw [getD_pre_base]
        exact hbase
      obtain ⟨q, hq⟩ : ∃ q, getD y "base_amount" = JVal.num q := by
        cases hg : getD y "base_amount" <;> rw [hg] at hnum <;> simp [asNum?] at hnum
        exact ⟨_, rfl⟩
      exact ⟨q, hq, total_of_line_empty hempty hq⟩
  · intro lines lid si uid c ls ln c2 i hlen h hi hbase
    rw [add_subitem.eq_def] at h
    simp only [hi] at h
    rw [List.get?_eq_get hlen] at h
    cases hnorm : normalize_line (lines.get ⟨i, hlen⟩) c with
    | none => simp only [hnorm] at h; exact PyResult.noConfusion h
    | some p =>
      simp only [hnorm] at h
      have hbp : getD p.1 "base_amount" = getD (lines.get ⟨i, hlen⟩) "base_amount" := by
        rw [normalize_line_base hnorm]
        have hx := getD_pre_base (lines.get ⟨i, hlen⟩) c
        rw [getD_normStepBase_of_ne_null (by rw [hx]; exact hbase), hx]
      cases hg : getD p.1 "subitems" with
      | arr xs =>
        simp only [hg] at h
        have h2 := PyResult.ok.inj h
        have hln : jset p.1 "subitems" (JVal.arr (xs ++
            [JVal.obj
              [("id", (if truthy (getD si "id") = true then getD si "id"
                       else JVal.str (genId p.2))),
               ("label", orElseVal (getD si "label") (JVal.str "")),
               ("amount", JVal.num (match pyFloat (orElseVal (getD si "amount") (JVal.num 0))
                                    with
                                    | some q => q
                                    | none => 0))]])) = ln := by
          exact ((Prod.mk.injEq _ _ _ _).mp h2).2 |> fun hx =>
            ((Prod.mk.injEq _ _ _ _).mp hx).1
        rw [← hln, getD_jset_ne _ _ _ _ (by decide), hbp]
      | null => simp only [hg] at h; exact PyResult.noConfusion h
      | num q => simp only [hg] at h; exact PyResult.noConfusion h
      | str s => simp only [hg] at h; exact PyResult.noConfusion h
      | obj fs => simp only [hg] at h; exact PyResult.noConfusion h

/-- Witness for C2: the Rent line with subitems 400 and 600 totals to their
sum, and adding a subitem to a stored line keeps base_amount 1000. -/
theorem total_of_line_after_normalize_witness :
    total_of_line [("id", JVal.str "L1"), ("user_id", JVal.str "u"),
        ("label", JVal.str "Rent"), ("type", JVal.str "expense"),
        ("base_amount", JVal.num 1000),
        ("subitems", JVal.arr
          [JVal.obj [("id", JVal.str "s1"), ("label", JVal.str "a"),
            ("amount", JVal.num 400)],
           JVal.obj [("id", JVal.str "s2"), ("label", JVal.str "b"),
            ("amount", JVal.num 600)]]),
        ("category", JVal.str "sonstige ausgaben"), ("is_variable", JVal.null)] =
      some (([JVal.obj [("id", JVal.str "s1"), ("label", JVal.str "a"),
            ("amount", JVal.num 400)],
          JVal.obj [("id", JVal.str "s2"), ("label", JVal.str "b"),
            ("amount", JVal.num 600)]].map subAmountVal).sum) ∧
    getD [("id", JVal.str "L1"), ("user_id", JVal.str "u"),
        ("type", JVal.str "expense"), ("base_amount", JVal.num 1000),
        ("category", JVal.str "sonstige ausgaben"),
        ("subitems", JVal.arr [JVal.obj [("id", JVal.str "uuid-0"),
          ("label", JVal.str ""), ("amount", JVal.num 400)]]),
        ("is_variable", JVal.null)] "base_amount" =
      getD ([[("id", JVal.str "L1"), ("user_id", JVal.str "u"),
        ("type", JVal.str "expense"),
        ("base_amount", JVal.num 1000)]].get ⟨0, by decide⟩) "base_amount" :=
  ⟨(total_of_line_after_normalize.1
      [("id", JVal.str "L1"), ("user_id", JVal.str "u"), ("label", JVal.str "Rent"),
        ("type", JVal.str "expense"), ("base_amount", JVal.num 1000),
        ("subitems", JVal.arr
          [JVal.obj [("id", JVal.str "s1"), ("label", JVal.str "a"),
            ("amount", JVal.num 400)],
           JVal.obj [("id", JVal.str "s2"), ("label", JVal.str "b"),
            ("amount", JVal.num 600)]])]
      0 _ 0 rfl).1 _ rfl (by decide),
   total_of_line_after_normalize.2
      [[("id", JVal.str "L1"), ("user_id", JVal.str "u"), ("type", JVal.str "expense"),
        ("base_amount", JVal.num 1000)]] "L1" [("amount", JVal.num 400)] "u" 0
      _ _ 1 0 (by decide) rfl rfl (by decide)⟩

/-- Counterexample to C2 as stated: on the line with base_amount = "abc"
and no subitems, the total of the normalized line is not base_amount; the
code raises instead (total_of_line evaluates to none). -/
theorem total_of_line_after_normalize_counterexample :
    (normalize_line [("base_amount", JVal.str "abc")] 0).map
      (fun p => total_of_line p.1) = some none :=
  rfl

/-- C4: whenever summary produces a result, net equals income minus
expense, and the signed per-category totals sum to income minus expense. -/
theorem summary_net_invariant {lines : List JObj} {uid : String} {c : Nat} {s : SummaryOut}
    (h : summary lines uid c = some s) :
    s.net = s.income - s.expense ∧
      (s.categories.map (fun p => p.2)).sum = s.income - s.expense := by
  obtain ⟨ns, c2, inc, ex, cats, hm, hi, he, hc, hs⟩ := summary_eq h
  subst hs
  refine ⟨rfl, ?_⟩
  simp only
  rw [sortCats_sum]
  have hty : ∀ l ∈ ns, getD l "type" = JVal.str "income" ∨
      getD l "type" = JVal.str "expense" :=
    fun l hl => normalizedLine_type (mapNormalize_normalized hm l hl)
  rw [catFold] at hc
  have hsum := catFoldFrom_sum hty [] cats inc ex hc hi he
  rw [hsum, catSum]
  simp

/-- Witness for C4: a one-line income dataset; its summary satisfies both
equations. -/
theorem summary_net_invariant_witness :
    SummaryOut.net ⟨100 + 0, 0, (100 + 0) - 0, [(JVal.str "Job", 100)]⟩ =
        SummaryOut.income ⟨100 + 0, 0, (100 + 0) - 0, [(JVal.str "Job", 100)]⟩ -
          SummaryOut.expense ⟨100 + 0, 0, (100 + 0) - 0, [(JVal.str "Job", 100)]⟩ ∧
      ((SummaryOut.categories ⟨100 + 0, 0, (100 + 0) - 0, [(JVal.str "Job", 100)]⟩).map
          (fun p => p.2)).sum =
        SummaryOut.income ⟨100 + 0, 0, (100 + 0) - 0, [(JVal.str "Job", 100)]⟩ -
          SummaryOut.expense ⟨100 + 0, 0, (100 + 0) - 0, [(JVal.str "Job", 100)]⟩ :=
  @summary_net_invariant [[("id", JVal.str "L1"), ("user_id", JVal.str "u"),
    ("type", JVal.str "income"), ("category", JVal.str "Job"),
    ("base_amount", JVal.num 100), ("subitems", JVal.arr []),
    ("is_variable", JVal.null)]] "u" 0
    ⟨100 + 0, 0, (100 + 0) - 0, [(JVal.str "Job", 100)]⟩ rfl

/-- C5 (amended): the categories listing does NOT normalize first (see the
counterexample); it filters the stored raw lines to the requesting user and
returns their distinct category strings (falsy categories listed as
"ohne"), deduplicated, in ascending lexical order. -/
theorem categories_characterization {lines : List JObj} {uid : String} {r : List String}
    (h : categories lines uid = some r) :
    r.Sorted (fun a b => a ≤ b) ∧ r.Nodup ∧
      (∀ s, s ∈ r ↔ ∃ l ∈ lines, pyEq (getD l "user_id") (.str uid) = true ∧
        catOrOhne l = JVal.str s) := by
  obtain ⟨cs, hcs, hr⟩ := categories_eq h
  subst hr
  refine ⟨sortStrings_sorted _, nodup_sortStrings (List.nodup_dedup cs), ?_⟩
  intro s
  rw [mem_sortStrings, List.mem_dedup, optMapList_mem hcs s]
  constructor
  · rintro ⟨v, hv, hfv⟩
    rw [asStr?_eq_some] at hfv
    subst hfv
    rw [List.mem_map] at hv
    obtain ⟨l, hl, hcat⟩ := hv
    rw [List.mem_filter] at hl
    exact ⟨l, hl.1, hl.2, hcat⟩
  · rintro ⟨l, hl, hu, hcat⟩
    exact ⟨catOrOhne l, List.mem_map.mpr ⟨l, List.mem_filter.mpr ⟨hl, hu⟩, rfl⟩,
      by rw [hcat]; rfl⟩

/-- Witness for C5 (amended): on a two-line dataset the listing is sorted,
duplicate-free and contains exactly the user's category strings. -/
theorem categories_characterization_witness :
    (["Food", "ohne"].Sorted (fun a b : String => a ≤ b) ∧ ["Food", "ohne"].Nodup ∧
      (∀ s, s ∈ ["Food", "ohne"] ↔
        ∃ l ∈ [[("user_id", JVal.str "u"), ("category", JVal.str "Food")],
               ([("user_id", JVal.str "u")] : JObj)],
          pyEq (getD l "user_id") (JVal.str "u") = true ∧ catOrOhne l = JVal.str s)) :=
  @categories_characterization
    [[("user_id", JVal.str "u"), ("category", JVal.str "Food")],
     [("user_id", JVal.str "u")]] "u" ["Food", "ohne"] rfl

/-- Counterexample to C5 as stated: on a dataset with one category-less
line of the user, the code lists "ohne", while the claimed
normalize-first recipe would list "sonstige ausgaben"; the listing does
not normalize the dataset. -/
theorem categories_counterexample :
    categories [[("user_id", JVal.str "u")]] "u" = some ["ohne"] ∧
      categoriesSpecNormalized [[("user_id", JVal.str "u")]] "u" 0 =
        some ["sonstige ausgaben"] ∧
      categories [[("user_id", JVal.str "u")]] "u" ≠
        categoriesSpecNormalized [[("user_id", JVal.str "u")]] "u" 0 :=
  ⟨rfl, rfl, by decide⟩

/-- C6: a successful startup migration (schema migration, default-user
seeding, orphan attachment) is idempotent: running the pipeline again on
its own output changes nothing, for any fresh-id counter, password hash and
clock value of the second run. -/
theorem startup_idempotent {d : Dataset} {c : Nat} {pw : String} {ca : ℚ} {d2 : Dataset}
    {c2 : Nat} (h : startup d c pw ca = some (d2, c2)) (c' : Nat) (pw' : String)
    (ca' : ℚ) : startup d2 c' pw' ca' = some (d2, c') :=
  startup_second_run h c' pw' ca'

/-- Witness for C6: starting from a dataset with one orphan legacy line and
no users, the second startup run leaves the migrated dataset unchanged. -/
theorem startup_idempotent_witness :
    startup
      ⟨[[("label", JVal.str "old"), ("id", JVal.str "uuid-0"),
         ("type", JVal.str "expense"), ("category", JVal.str "sonstige ausgaben"),
         ("base_amount", JVal.num 0), ("subitems", JVal.arr []),
         ("is_variable", JVal.null), ("user_id", JVal.str "uuid-1")]],
       [[("id", JVal.str "uuid-1"), ("username", JVal.str "thom7e"),
         ("password_hash", JVal.str "pw"), ("created_at", JVal.num 123)]],
       some (JVal.num 1)⟩ 99 "pw2" 456 =
    some (⟨[[("label", JVal.str "old"), ("id", JVal.str "uuid-0"),
         ("type", JVal.str "expense"), ("category", JVal.str "sonstige ausgaben"),
         ("base_amount", JVal.num 0), ("subitems", JVal.arr []),
         ("is_variable", JVal.null), ("user_id", JVal.str "uuid-1")]],
       [[("id", JVal.str "uuid-1"), ("username", JVal.str "thom7e"),
         ("password_hash", JVal.str "pw"), ("created_at", JVal.num 123)]],
       some (JVal.num 1)⟩, 99) :=
  @startup_idempotent ⟨[[("label", JVal.str "old")]], [], none⟩ 0 "pw" 123
    ⟨[[("label", JVal.str "old"), ("id", JVal.str "uuid-0"),
         ("type", JVal.str "expense"), ("category", JVal.str "sonstige ausgaben"),
         ("base_amount", JVal.num 0), ("subitems", JVal.arr []),
         ("is_variable", JVal.null), ("user_id", JVal.str "uuid-1")]],
       [[("id", JVal.str "uuid-1"), ("username", JVal.str "thom7e"),
         ("password_hash", JVal.str "pw"), ("created_at", JVal.num 123)]],
       some (JVal.num 1)⟩ 2 rfl 99 "pw2" 456

/-- C7 (amended): given that the payload's old / new values strip to
strings (they are strings or falsy; a truthy non-string payload value makes
the endpoint raise instead, see the counterexample), rename fails with the
422 validation error exactly when old or new is empty after trimming, and
the dataset is only written on success; if moreover every category value on
the caller's own lines is a string or falsy, the rename succeeds and
reassigns exactly the caller's case-insensitively matching lines to the
literal new string. -/
theorem rename_category_spec {payload : JObj} {lines : List JObj} {uid : String}
    {old nw : String}
    (hso : pyStripOrEmpty? (getD payload "old") = some old)
    (hsn : pyStripOrEmpty? (getD payload "new") = some nw) :
    (rename_category payload lines uid = .httpError 422 ↔ old = "" ∨ nw = "") ∧
    (¬(old = "" ∨ nw = "") →
      (∀ l ∈ lines, pyEq (getD l "user_id") (.str uid) = true →
        (lowerCat? l).isSome = true) →
      ∃ ls, rename_category payload lines uid = .ok ls ∧ ls.length = lines.length ∧
        ∀ (i : Nat) (hi : i < lines.length) (hi2 : i < ls.length),
          ls.get ⟨i, hi2⟩ =
            (if pyEq (getD (lines.get ⟨i, hi⟩) "user_id") (.str uid) = true then
              (if lowerCat? (lines.get ⟨i, hi⟩) = some (pyLower old) then
                jset (lines.get ⟨i, hi⟩) "category" (.str nw)
               else lines.get ⟨i, hi⟩)
             else lines.get ⟨i, hi⟩)) := by
  constructor
  · rw [rename_category.eq_def]
    simp only [hso, hsn]
    by_cases hemp : old = "" ∨ nw = ""
    · rw [if_pos hemp]
      simp [hemp]
    · rw [if_neg hemp]
      constructor
      · intro hcontra
        cases hm : optMapList (renameLine old nw uid) lines with
        | none => rw [hm] at hcontra; exact PyResult.noConfusion hcontra
        | some ls => rw [hm] at hcontra; exact PyResult.noConfusion hcontra
      · intro h
        exact absurd h hemp
  · intro hemp hcats
    have hsome : ∀ l ∈ lines, (renameLine old nw uid l).isSome = true := by
      intro l hl
      rw [renameLine]
      by_cases hu : pyEq (getD l "user_id") (JVal.str uid) = false
      · rw [if_pos hu]
        rfl
      · rw [if_neg hu]
        have hut : pyEq (getD l "user_id") (JVal.str uid) = true := by
          cases hx : pyEq (getD l "user_id") (JVal.str uid)
          · exact absurd hx hu
          · rfl
        obtain ⟨cl, hcl⟩ := Option.isSome_iff_exists.mp (hcats l hl hut)
        rw [hcl]
        rfl
    obtain ⟨ls, hls⟩ := optMapList_isSome hsome
    refine ⟨ls, ?_, optMapList_length hls, ?_⟩
    · rw [rename_category.eq_def]
      simp only [hso, hsn]
      rw [if_neg hemp, hls]
    · intro i hi hi2
      have hpt := optMapList_get hls i hi hi2
      by_cases hu : pyEq (getD (lines.get ⟨i, hi⟩) "user_id") (JVal.str uid) = true
      · rw [if_pos hu]
        rw [renameLine, if_neg (by rw [hu]; simp)] at hpt
        obtain ⟨cl, hcl⟩ := Option.isSome_iff_exists.mp
          (hcats (lines.get ⟨i, hi⟩) (lines.get_mem i hi) hu)
        simp only [hcl] at hpt
        by_cases hcle : cl = pyLower old
        · rw [if_pos (show lowerCat? (lines.get ⟨i, hi⟩) = some (pyLower old) by
            rw [hcl, hcle])]
          rw [if_pos hcle] at hpt
          exact (Option.some.inj hpt).symm
        · rw [if_neg (show ¬ lowerCat? (lines.get ⟨i, hi⟩) = some (pyLower old) by
            rw [hcl]
            intro hx
            exact hcle (Option.some.inj hx))]
          rw [if_neg hcle] at hpt
          exact (Option.some.inj hpt).symm
      · have huf : pyEq (getD (lines.get ⟨i, hi⟩) "user_id") (JVal.str uid) = false := by
          cases hx : pyEq (getD (lines.get ⟨i, hi⟩) "user_id") (JVal.str uid)
          · rfl
          · exact absurd hx hu
        rw [renameLine_skip huf] at hpt
        rw [if_neg hu]
        exact (Option.some.inj hpt).symm

/-- Witness for C7: renaming Food to Groceries over a two-user dataset
succeeds and rewrites exactly the caller's matching line. -/
theorem rename_category_spec_witness :
    ∃ ls, rename_category [("old", JVal.str "Food"), ("new", JVal.str "Groceries")]
        [[("user_id", JVal.str "u"), ("category", JVal.str "food")],
         [("user_id", JVal.str "v"), ("category", JVal.str "food")]] "u" =
          PyResult.ok ls ∧
      ls.length = [[("user_id", JVal.str "u"), ("category", JVal.str "food")],
         [("user_id", JVal.str "v"), ("category", JVal.str "food")]].length ∧
      ∀ (i : Nat)
        (hi : i < [[("user_id", JVal.str "u"), ("category", JVal.str "food")],
          [("user_id", JVal.str "v"), ("category", JVal.str "food")]].length)
        (hi2 : i < ls.length),
        ls.get ⟨i, hi2⟩ =
          (if pyEq (getD ([[("user_id", JVal.str "u"), ("category", JVal.str "food")],
              [("user_id", JVal.str "v"), ("category", JVal.str "food")]].get ⟨i, hi⟩)
              "user_id") (.str "u") = true then
            (if lowerCat? ([[("user_id", JVal.str "u"), ("category", JVal.str "food")],
                [("user_id", JVal.str "v"), ("category", JVal.str "food")]].get ⟨i, hi⟩) =
                some (pyLower "Food") then
              jset ([[("user_id", JVal.str "u"), ("category", JVal.str "food")],
                [("user_id", JVal.str "v"), ("category", JVal.str "food")]].get ⟨i, hi⟩)
                "category" (.str "Groceries")
             else [[("user_id", JVal.str "u"), ("category", JVal.str "food")],
                [("user_id", JVal.str "v"), ("category", JVal.str "food")]].get ⟨i, hi⟩)
           else [[("user_id", JVal.str "u"), ("category", JVal.str "food")],
              [("user_id", JVal.str "v"), ("category", JVal.str "food")]].get ⟨i, hi⟩) :=
  (@rename_category_spec [("old", JVal.str "Food"), ("new", JVal.str "Groceries")]
    [[("user_id", JVal.str "u"), ("category", JVal.str "food")],
     [("user_id", JVal.str "v"), ("category", JVal.str "food")]]
    "u" "Food" "Groceries" rfl rfl).2 (by decide) (by decide)

/-- Counterexample to C7 as stated: with valid non-empty old / new strings
and a matching caller line present, a non-string category on another of the
caller's lines makes the endpoint raise (a 500, not a validation error),
and the matching line is not reassigned. -/
theorem rename_category_spec_counterexample :
    rename_category [("old", JVal.str "food"), ("new", JVal.str "Groceries")]
      [[("user_id", JVal.str "u"), ("category", JVal.num 5)],
       [("user_id", JVal.str "u"), ("category", JVal.str "food")]] "u" =
        PyResult.crash ∧
    pyEq (getD [("user_id", JVal.str "u"), ("category", JVal.str "food")] "user_id")
      (JVal.str "u") = true ∧
    lowerCat? [("user_id", JVal.str "u"), ("category", JVal.str "food")] = some "food" :=
  ⟨rfl, rfl, rfl⟩

/-- C8: both category-editor operations leave every line whose user_id does
not match the requesting user byte-for-byte unchanged, at its original
position. -/
theorem category_editor_scoped :
    (∀ (lines : List JObj) (name : String) (target : Option String) (uid : String)
        (ls : List JObj) (r : Option String),
      delete_category lines name target uid = .ok (ls, r) →
      ls.length = lines.length ∧
      ∀ (i : Nat) (hi : i < lines.length) (hi2 : i < ls.length),
        pyEq (getD (lines.get ⟨i, hi⟩) "user_id") (.str uid) = false →
        ls.get ⟨i, hi2⟩ = lines.get ⟨i, hi⟩) ∧
    (∀ (payload : JObj) (lines : List JObj) (uid : String) (ls : List JObj),
      rename_category payload lines uid = .ok ls →
      ls.length = lines.length ∧
      ∀ (i : Nat) (hi : i < lines.length) (hi2 : i < ls.length),
        pyEq (getD (lines.get ⟨i, hi⟩) "user_id") (.str uid) = false →
        ls.get ⟨i, hi2⟩ = lines.get ⟨i, hi⟩) := by
  constructor
  · intro lines name target uid ls r h
    have hm := delete_category_ok h
    refine ⟨optMapList_length hm, ?_⟩
    intro i hi hi2 hne
    have hpt := optMapList_get hm i hi hi2
    rw [deleteCatLine_skip hne] at hpt
    exact (Option.some.inj hpt).symm
  · intro payload lines uid ls h
    obtain ⟨old, nw, _, _, _, hm⟩ := rename_category_ok h
    refine ⟨optMapList_length hm, ?_⟩
    intro i hi hi2 hne
    have hpt := optMapList_get hm i hi hi2
    rw [renameLine_skip hne] at hpt
    exact (Option.some.inj hpt).symm

/-- Witness for C8: a category delete and a rename each leave the other
user's line (same category name) untouched. -/
theorem category_editor_scoped_witness :
    ([[("user_id", JVal.str "u"), ("category", JVal.str "sonstige ausgaben"),
        ("type", JVal.str "expense")],
      [("user_id", JVal.str "v"), ("category", JVal.str "food")]].get ⟨1, by decide⟩ =
      [[("user_id", JVal.str "u"), ("category", JVal.str "Food"),
        ("type", JVal.str "expense")],
       [("user_id", JVal.str "v"), ("category", JVal.str "food")]].get ⟨1, by decide⟩) ∧
    ([[("user_id", JVal.str "u"), ("category", JVal.str "Groceries")],
      [("user_id", JVal.str "v"), ("category", JVal.str "food")]].get ⟨1, by decide⟩ =
      [[("user_id", JVal.str "u"), ("category", JVal.str "food")],
       [("user_id", JVal.str "v"), ("category", JVal.str "food")]].get ⟨1, by decide⟩) :=
  ⟨(category_editor_scoped.1
      [[("user_id", JVal.str "u"), ("category", JVal.str "Food"),
        ("type", JVal.str "expense")],
       [("user_id", JVal.str "v"), ("category", JVal.str "food")]]
      "food" none "u"
      [[("user_id", JVal.str "u"), ("category", JVal.str "sonstige ausgaben"),
        ("type", JVal.str "expense")],
       [("user_id", JVal.str "v"), ("category", JVal.str "food")]]
      none rfl).2 1 (by decide) (by decide) rfl,
   (category_editor_scoped.2
      [("old", JVal.str "Food"), ("new", JVal.str "Groceries")]
      [[("user_id", JVal.str "u"), ("category", JVal.str "food")],
       [("user_id", JVal.str "v"), ("category", JVal.str "food")]]
      "u"
      [[("user_id", JVal.str "u"), ("category", JVal.str "Groceries")],
       [("user_id", JVal.str "v"), ("category", JVal.str "food")]]
      rfl).2 1 (by decide) (by decide) rfl⟩

/-- C9 (amended): an unparsable numeric field is recovered silently and
never surfaced, but update_line does not store 0.0 for an unparsable
base_amount: the try / except around the float coercion passes, leaving the
stored base_amount unchanged (create_line and the normalizer are the paths
that default to zero). -/
theorem update_line_unparsable_base {lines : List JObj} {lid : String} {payload : JObj}
    {uid : String} {c : Nat} {ls : List JObj} {ln : JObj} {c2 : Nat} {i : Nat} {v : JVal}
    (h : update_line lines lid payload uid c = .ok (ls, ln, c2))
    (hi : firstMatch lines lid uid = some i) (hlen : i < lines.length)
    (hv : jget? payload "base_amount" = some v) (htv : truthy v = true)
    (hpf : pyFloat v = none) :
    getD ln "base_amount" = getD (lines.get ⟨i, hlen⟩) "base_amount" := by
  rw [update_line.eq_def] at h
  simp only [hi] at h
  simp only [List.get?_eq_get hlen] at h
  cases ht : updType payload (updLabel payload (lines.get ⟨i, hlen⟩)) with
  | none =>
    simp only [ht] at h
    exact PyResult.noConfusion h
  | some cur2 =>
    simp only [ht] at h
    cases hs : updSubs payload (updBase payload (updCategory payload cur2)) c with
    | none =>
      simp only [hs] at h
      exact PyResult.noConfusion h
    | some p =>
      simp only [hs] at h
      have h2 := PyResult.ok.inj h
      have hln : jset p.1 "user_id" (JVal.str uid) = ln :=
        ((Prod.mk.injEq _ _ _ _).mp (((Prod.mk.injEq _ _ _ _).mp h2).2)).1
      rw [← hln, getD_jset_ne _ _ _ _ (by decide), updSubs_base hs,
        updBase_unparsable hv htv hpf, updCategory_base, updType_base ht, updLabel_base]

/-- Witness for C9 (amended): updating a line whose base_amount is 7 with
the unparsable payload value "abc" keeps base_amount at its stored value. -/
theorem update_line_unparsable_base_witness :
    getD [("id", JVal.str "L1"), ("user_id", JVal.str "u"), ("base_amount", JVal.num 7)]
        "base_amount" =
      getD ([[("id", JVal.str "L1"), ("user_id", JVal.str "u"),
        ("base_amount", JVal.num 7)]].get ⟨0, by decide⟩) "base_amount" :=
  @update_line_unparsable_base
    [[("id", JVal.str "L1"), ("user_id", JVal.str "u"), ("base_amount", JVal.num 7)]]
    "L1" [("base_amount", JVal.str "abc")] "u" 0
    [[("id", JVal.str "L1"), ("user_id", JVal.str "u"), ("base_amount", JVal.num 7)]]
    [("id", JVal.str "L1"), ("user_id", JVal.str "u"), ("base_amount", JVal.num 7)]
    0 0 (JVal.str "abc") rfl rfl (by decide) rfl rfl rfl

/-- Counterexample to C9 as stated: the update with unparsable base_amount
"abc" succeeds silently but stores the previous value 7, not 0.0. -/
theorem update_line_unparsable_base_counterexample :
    update_line [[("id", JVal.str "L1"), ("user_id", JVal.str "u"),
        ("base_amount", JVal.num 7)]] "L1" [("base_amount", JVal.str "abc")] "u" 0 =
      PyResult.ok ([[("id", JVal.str "L1"), ("user_id", JVal.str "u"),
          ("base_amount", JVal.num 7)]],
        [("id", JVal.str "L1"), ("user_id", JVal.str "u"), ("base_amount", JVal.num 7)],
        0) ∧
    getD [("id", JVal.str "L1"), ("user_id", JVal.str "u"), ("base_amount", JVal.num 7)]
        "base_amount" ≠ JVal.num 0 :=
  ⟨rfl, by decide⟩

/-- C10: delete_category with an empty-string target behaves exactly as
with no target at all; every matching line of the requesting user is
reassigned to the type-appropriate default category, never to the empty
string. -/
theorem delete_category_empty_target :
    (∀ (lines : List JObj) (name uid : String),
      delete_category lines name (some "") uid = delete_category lines name none uid) ∧
    (∀ (lines : List JObj) (name uid : String) (ls : List JObj) (r : Option String),
      delete_category lines name none uid = .ok (ls, r) →
      r = none ∧
      ∀ (i : Nat) (hi : i < lines.length) (hi2 : i < ls.length),
        pyEq (getD (lines.get ⟨i, hi⟩) "user_id") (.str uid) = true →
        lowerCat? (lines.get ⟨i, hi⟩) = some (pyLower name) →
        ls.get ⟨i, hi2⟩ = jset (lines.get ⟨i, hi⟩) "category"
          (.str (defaultCatFor (lines.get ⟨i, hi⟩))) ∧
        JVal.str (defaultCatFor (lines.get ⟨i, hi⟩)) ≠ JVal.str "") := by
  constructor
  · intro lines name uid
    have hfun : deleteCatLine name (some "") uid = deleteCatLine name none uid := by
      funext l
      rfl
    rw [delete_category.eq_def, delete_category.eq_def, hfun]
    cases optMapList (deleteCatLine name none uid) lines <;> rfl
  · intro lines name uid ls r h
    refine ⟨delete_category_none_renamed h, ?_⟩
    intro i hi hi2 hu hcl
    have hpt := optMapList_get (delete_category_ok h) i hi hi2
    rw [deleteCatLine.eq_def, if_neg (by rw [hu]; simp)] at hpt
    simp only [hcl, if_true] at hpt
    constructor
    · exact (Option.some.inj hpt).symm
    · rw [defaultCatFor]
      split <;> decide

/-- Witness for C10: deleting category food with target set to the empty
string equals deleting with no target, and the caller's matching expense
line is reassigned to the non-empty default. -/
theorem delete_category_empty_target_witness :
    (delete_category [[("user_id", JVal.str "u"), ("category", JVal.str "Food"),
        ("type", JVal.str "expense")]] "food" (some "") "u" =
      delete_category [[("user_id", JVal.str "u"), ("category", JVal.str "Food"),
        ("type", JVal.str "expense")]] "food" none "u") ∧
    ([[("user_id", JVal.str "u"), ("category", JVal.str "sonstige ausgaben"),
        ("type", JVal.str "expense")]].get ⟨0, by decide⟩ =
      jset ([[("user_id", JVal.str "u"), ("category", JVal.str "Food"),
        ("type", JVal.str "expense")]].get ⟨0, by decide⟩) "category"
        (.str (defaultCatFor ([[("user_id", JVal.str "u"),
          ("category", JVal.str "Food"),
          ("type", JVal.str "expense")]].get ⟨0, by decide⟩))) ∧
      JVal.str (defaultCatFor ([[("user_id", JVal.str "u"),
        ("category", JVal.str "Food"),
        ("type", JVal.str "expense")]].get ⟨0, by decide⟩)) ≠ JVal.str "") :=
  ⟨delete_category_empty_target.1
      [[("user_id", JVal.str "u"), ("category", JVal.str "Food"),
        ("type", JVal.str "expense")]] "food" "u",
   (delete_category_empty_target.2
      [[("user_id", JVal.str "u"), ("category", JVal.str "Food"),
        ("type", JVal.str "expense")]] "food" "u"
      [[("user_id", JVal.str "u"), ("category", JVal.str "sonstige ausgaben"),
        ("type", JVal.str "expense")]] none rfl).2 0 (by decide) (by decide) rfl rfl⟩
